import Mathlib

/-!
Verification of the manifest-reconciliation scripts of the Axiom repository
(`AxiomTestApp/sync_files_to_xcode.py`, `AxiomTestApp/Scripts/add_files_to_project.py`,
`AxiomTestApp/fix_file_paths.py`).

Modelling notes.
* Text is modelled as lists of characters (`Str`); the manifest
  (`project.pbxproj`) is modelled as a list of lines (`List Str`).  Every
  fragment the scripts insert is a single line, and every section marker the
  scripts search for occupies a single line of a well-formed manifest, so the
  line-level model matches the byte-level behaviour of the Python code on the
  inputs all claims are about.  The regex searches of the Python code become
  explicit character-level scanners over single lines.
* `sync_files_to_xcode.py` is the comprehensive variant and is the one
  embedded; `Scripts/add_files_to_project.py` is an earlier cut-down variant
  of the same algorithm (`str.find`-based insertion at the first marker
  occurrence, which is what `insertBeforeMarker` implements; the re.sub of
  the comprehensive variant coincides with it when the marker occurs once,
  as it does in a well-formed manifest).
* `uuid.uuid4()` is a random source; it is modelled as an ambient stream
  `ids : Nat → Str` of raw generator outputs, consumed left to right: the
  loop over missing files consumes stream positions 2*i (file reference id)
  and 2*i+1 (build file id) for the i-th missing file, exactly as the two
  `generate_uuid()` calls in the loop body do.
* File I/O (`open`/`read`/`write`) is modelled by passing the manifest text
  in and returning the text that would be written together with a `written`
  flag recording whether the `open(project_path, 'w')` write executed.
-/

namespace XcodeSync

set_option maxRecDepth 16384

abbrev Str := List Char

/-- Python `\w` (ASCII part, which is all that identifiers use). -/
def isWordChar (c : Char) : Bool := c.isAlphanum || c = '_'

/-- Characters of `str(uuid.uuid4()).replace('-','').upper()`: upper-case hex. -/
def isHexUp (c : Char) : Bool := c.isDigit || ('A' ≤ c && c ≤ 'F')

/-! ### Small string utilities used by the embedding -/

/-- Split `s` at the first occurrence of `pat`: returns `(a, b)` with
`s = a ++ pat ++ b` and no occurrence of `pat` starting inside `a`. -/
def splitFirstInfix (pat : Str) : Str → Option (Str × Str)
  | [] => if pat.isEmpty then some ([], []) else none
  | c :: s =>
    if pat.isPrefixOf (c :: s) then some ([], (c :: s).drop pat.length)
    else (splitFirstInfix pat s).map (fun p => (c :: p.1, p.2))

/-- All positions at which `pat` occurs in `s`. -/
def occPositions (pat s : Str) : List Nat :=
  (List.range (s.length + 1)).filter (fun i => pat.isPrefixOf (s.drop i))

/-- Executable infix test (the `in`/`re.search` membership tests of the
Python code). -/
def containsSub (pat s : Str) : Bool := !(occPositions pat s).isEmpty

/-- Split `s` at the last occurrence of `pat`. -/
def splitLastInfix (pat s : Str) : Option (Str × Str) :=
  (occPositions pat s).getLast?.map (fun i => (s.take i, s.drop (i + pat.length)))

/-- Maximal suffix of `a` consisting of `\w` characters (the `(\w+)` group
of the file-reference regex, anchored right before a literal separator). -/
def trailingWordRun (a : Str) : Str :=
  (a.reverse.takeWhile isWordChar).reverse

/-! ### File enumerator (`find_all_swift_files`, lines 16–41)

The file system is a finite tree.  `os.walk` yields, for each directory it
visits, that directory's plain files first and then recurses into the
(pruned) subdirectories in listing order; the script collects every file
whose name ends in `.swift` together with its path relative to the scanned
root.  The `directory_parts`/`parent_dir`/`full_path` bookkeeping fields of
the Python dict are not consulted by any later step and are omitted. -/

inductive FSTree where
  | file (name : Str)
  | dir (name : Str) (children : List FSTree)
deriving Repr

/-- `excluded_dirs = {'.build', 'DerivedData', '.git', 'xcuserdata'}` -/
def excluded_dirs : List Str :=
  [".build".data, "DerivedData".data, ".git".data, "xcuserdata".data]

def filesOf (cs : List FSTree) : List Str :=
  cs.filterMap (fun t => match t with | .file n => some n | .dir _ _ => none)

/-- `file.endswith('.swift')` -/
def isSwiftName (n : Str) : Bool := (".swift".data).isSuffixOf n

/-- `os.path.relpath`: join the directory components and the filename with
the path separator. -/
def relPath (dirs : List Str) (n : Str) : Str :=
  List.intercalate ("/".data) (dirs ++ [n])

structure SwiftFile where
  name : Str
  path : Str
deriving Repr, DecidableEq

def mkSwiftFile (dirs : List Str) (n : Str) : SwiftFile :=
  ⟨n, relPath dirs n⟩

/-- The recursive part of the walk: for each non-excluded subdirectory,
yield its matching files and then recurse (pruned subtrees are never
entered — `dirs[:] = [d for d in dirs if d not in excluded_dirs]`). -/
def walkDirs (relDir : List Str) : List FSTree → List SwiftFile
  | [] => []
  | .file _ :: ts => walkDirs relDir ts
  | .dir d cs :: ts =>
    (if d ∈ excluded_dirs then []
     else ((filesOf cs).filter isSwiftName).map (mkSwiftFile (relDir ++ [d]))
          ++ walkDirs (relDir ++ [d]) cs)
    ++ walkDirs relDir ts

/-- `find_all_swift_files(base_path)`: the files of the root directory
itself, then the walk of its subdirectories. -/
def find_all_swift_files (root : List FSTree) : List SwiftFile :=
  ((filesOf root).filter isSwiftName).map (mkSwiftFile []) ++ walkDirs [] root

/-- Reference enumeration (specification side, for the refinement statement
of the enumerator claim): every file node of the tree, in the same
files-then-subdirectories order, paired with the directory components
leading to it, with no pruning and no extension filtering. -/
def enumAllDirs : List FSTree → List (Str × List Str)
  | [] => []
  | .file _ :: ts => enumAllDirs ts
  | .dir d cs :: ts =>
    ((filesOf cs).map (fun n => (n, [d]))
      ++ (enumAllDirs cs).map (fun p => (p.1, d :: p.2)))
    ++ enumAllDirs ts

def enumAll (root : List FSTree) : List (Str × List Str) :=
  (filesOf root).map (fun n => (n, ([] : List Str))) ++ enumAllDirs root

/-- A file is pruned away exactly when one of its directory components is
excluded; otherwise it must carry the `.swift` extension. -/
def enumSelect (relDir : List Str) (p : Str × List Str) : Option SwiftFile :=
  if isSwiftName p.1 && p.2.all (fun d => !(excluded_dirs.contains d)) then
    some (mkSwiftFile (relDir ++ p.2) p.1)
  else none

/-! ### Identifier minting (`generate_uuid`, lines 12–14) -/

/-- `str(uuid.uuid4()).replace('-', '').upper()[:24]` applied to one raw
output of the random source. -/
def generate_uuid (raw : Str) : Str :=
  ((raw.filter (fun c => c ≠ '-')).map Char.toUpper).take 24

/-! ### Manifest fragments and section markers

The literal texts of `update_project_file`, lines 96–110 and 112–137. -/

/-- File-reference fragment (lines 97–101).  Note that the recorded `path`
is the bare filename, not the enumerated relative path. -/
def fileRefFrag (u n : Str) : Str :=
  "\t\t".data ++ u ++ " /* ".data ++ n
    ++ " */ = \x7bisa = PBXFileReference; lastKnownFileType = sourcecode.swift; path = \"".data
    ++ n ++ "\"; sourceTree = \"<group>\"; \x7d;".data

/-- A file-reference fragment with an explicit `path` attribute (the shape
`fix_file_paths.py` rewrites fragments into); `fileRefFrag u n` is
`fileRefFragPath u n n`. -/
def fileRefFragPath (u n p : Str) : Str :=
  "\t\t".data ++ u ++ " /* ".data ++ n
    ++ " */ = \x7bisa = PBXFileReference; lastKnownFileType = sourcecode.swift; path = \"".data
    ++ p ++ "\"; sourceTree = \"<group>\"; \x7d;".data

/-- Build-file fragment (lines 104–107): its identifier plus a back
reference to the file-reference identifier. -/
def buildFileFrag (ub uf n : Str) : Str :=
  "\t\t".data ++ ub ++ " /* ".data ++ n
    ++ " in Sources */ = \x7bisa = PBXBuildFile; fileRef = ".data
    ++ uf ++ " /* ".data ++ n ++ " */; \x7d;".data

/-- Sources-phase listing fragment (line 110): references the build-file
identifier. -/
def sourceFrag (ub n : Str) : Str :=
  "\t\t\t\t".data ++ ub ++ " /* ".data ++ n ++ " in Sources */,".data

def endBuildFileMarker : Str := "/* End PBXBuildFile section */".data
def endFileRefMarker : Str := "/* End PBXFileReference section */".data

/-- The hard-coded identifier of the Sources build phase (line 131). -/
def sourcesHdrHex : Str := "1A12344E1234567890ABCDEF".data

def sourcesHeaderPat : Str := "1A12344E1234567890ABCDEF /* Sources */ = \x7b".data
def filesOpenPat : Str := "files = (".data
def sourcesClosePat : Str := ");".data

/-! ### Manifest parser (`extract_existing_files`, lines 43–53)

The regex `(\w+) /\* (.+\.swift) \*/ = \{isa = PBXFileReference;[^}]+\};`
is matched against each line: the `(\w+)` group is the maximal word run
right before the literal `" /* "`, the greedy `(.+\.swift)` group is
everything up to the last occurrence of `" */ = {isa = PBXFileReference;"`,
and `[^}]+\};` demands that the first `}` of the remainder comes after at
least one character and is immediately followed by `;`. -/

def sep1 : Str := " /* ".data
def sep2 : Str := " */ = \x7bisa = PBXFileReference;".data

def scanFileRef (l : Str) : Option (Str × Str) :=
  match splitFirstInfix sep1 l with
  | none => none
  | some (a, r) =>
    let u := trailingWordRun a
    if u.isEmpty then none
    else
      match splitLastInfix sep2 r with
      | none => none
      | some (n, rest) =>
        if (".swift".data).isSuffixOf n && decide (7 ≤ n.length) then
          match rest.findIdx? (fun c => c = '\x7d') with
          | some k => if 1 ≤ k && rest.get? (k + 1) = some ';' then some (u, n) else none
          | none => none
        else none

/-- Python dict assignment `d[k] = v`: overwrite in place, else append. -/
def dictSet (m : List (Str × Str)) (k v : Str) : List (Str × Str) :=
  if m.any (fun p => p.1 = k) then m.map (fun p => if p.1 = k then (k, v) else p)
  else m ++ [(k, v)]

def lookupDict (m : List (Str × Str)) (k : Str) : Option Str :=
  (m.find? (fun p => p.1 = k)).map (fun p => p.2)

/-- `l` is a file-reference line declaring filename `n`. -/
def declaresName (n l : Str) : Bool :=
  match scanFileRef l with
  | some p => p.2 = n
  | none => false

/-- `extract_existing_files(content)`: iterate the matches in text order,
assigning `existing_files[filename] = uuid` — a later match with the same
filename silently overwrites an earlier one. -/
def extract_existing_files (content : List Str) : List (Str × Str) :=
  content.foldl
    (fun m l => match scanFileRef l with
      | some p => dictSet m p.2 p.1
      | none => m) []

/-! ### Manifest patcher (`update_project_file`, lines 55–147) -/

/-- Insert `newLines` immediately before the first line containing `marker`;
if no line contains it, leave the text unchanged (the guarded
`if re.search(...): content = re.sub(...)` of lines 112–128). -/
def insertBeforeMarker (marker : Str) (newLines : List Str) (content : List Str) :
    List Str :=
  match content.findIdx? (fun l => containsSub marker l) with
  | none => content
  | some i => content.take i ++ newLines ++ content.drop i

/-- Locate the insertion point of the Sources phase listing (lines
130–137): the first line containing the Sources-phase header, then the
first following line opening its `files = (` list, then the first line
after that containing the list's closing `);` — the index returned is the
index of that closing line, before which the new listing lines go. -/
def sourcesInsertIdx (content : List Str) : Option Nat :=
  match content.findIdx? (fun l => containsSub sourcesHeaderPat l) with
  | none => none
  | some i =>
    match (content.drop (i + 1)).findIdx? (fun l => containsSub filesOpenPat l) with
    | none => none
    | some j =>
      match (content.drop (i + 1 + j + 1)).findIdx?
          (fun l => containsSub sourcesClosePat l) with
      | none => none
      | some k => some (i + 1 + j + 1 + k)

/-- `missing_files` (lines 71–75): enumerated files whose filename is not a
key of the parsed mapping. -/
def missingOf (swiftFiles : List SwiftFile) (content : List Str) : List SwiftFile :=
  swiftFiles.filter (fun f => (lookupDict (extract_existing_files content) f.name).isNone)

/-- The loop body of lines 91–110: walking the missing files in order, each
iteration consumes the next two raw outputs of the random source —
`file_uuid = generate_uuid()` then `build_uuid = generate_uuid()` — and
records `(file_uuid, build_uuid, filename)`. -/
def planFragsAux (ids : Nat → Str) : Nat → List SwiftFile → List (Str × Str × Str)
  | _, [] => []
  | j, f :: fs =>
    (generate_uuid (ids j), generate_uuid (ids (j + 1)), f.name)
      :: planFragsAux ids (j + 2) fs

def planFrags (swiftFiles : List SwiftFile) (content : List Str) (ids : Nat → Str) :
    List (Str × Str × Str) :=
  planFragsAux ids 0 (missingOf swiftFiles content)

/-- All identifiers minted in one run, in minting order. -/
def mintedIds (swiftFiles : List SwiftFile) (content : List Str) (ids : Nat → Str) :
    List Str :=
  (planFrags swiftFiles content ids).flatMap (fun t => [t.1, t.2.1])

/-- `new_build_files` (lines 86, 104–107). -/
def newBuildFilesOf (swiftFiles : List SwiftFile) (content : List Str)
    (ids : Nat → Str) : List Str :=
  (planFrags swiftFiles content ids).map (fun t => buildFileFrag t.2.1 t.1 t.2.2)

/-- `new_file_refs` (lines 87, 97–101). -/
def newFileRefsOf (swiftFiles : List SwiftFile) (content : List Str)
    (ids : Nat → Str) : List Str :=
  (planFrags swiftFiles content ids).map (fun t => fileRefFrag t.1 t.2.2)

/-- `new_sources` (lines 88, 110). -/
def newSourcesOf (swiftFiles : List SwiftFile) (content : List Str)
    (ids : Nat → Str) : List Str :=
  (planFrags swiftFiles content ids).map (fun t => sourceFrag t.2.1 t.2.2)

structure SyncResult where
  written : Bool
  content : List Str
deriving Repr, DecidableEq

/-- The third patch (lines 130–137): splice the new Sources-phase listing
lines in front of the located closing delimiter, or leave the staged text
unchanged when the Sources block cannot be located. -/
def patchSources (swiftFiles : List SwiftFile) (content : List Str)
    (ids : Nat → Str) (staged : List Str) : List Str :=
  match sourcesInsertIdx staged with
  | none => staged
  | some i => staged.take i ++ newSourcesOf swiftFiles content ids ++ staged.drop i

/-- `update_project_file` (lines 55–147), with the manifest text and the
random stream passed explicitly and the enumerated files as input: compute
the missing files; if none, return without writing; otherwise build the
three fragment lists and stage the three insertions in memory (build files,
then file references, then the Sources listing — each skipped when its
marker is absent), then write the staged text once. -/
def update_project_file (swiftFiles : List SwiftFile) (content : List Str)
    (ids : Nat → Str) : SyncResult :=
  if (missingOf swiftFiles content).isEmpty then ⟨false, content⟩
  else
    ⟨true, patchSources swiftFiles content ids
        (insertBeforeMarker endFileRefMarker (newFileRefsOf swiftFiles content ids)
          (insertBeforeMarker endBuildFileMarker
            (newBuildFilesOf swiftFiles content ids) content))⟩

/-! ### `fix_file_paths.py` (`fix_project_file`, lines 8–65)

For each `(filename, relative_path)` of the hard-coded table, rewrite every
file-reference fragment whose `path` is the bare filename so that its
`path` is the proper relative path, keeping the identifier. -/

def path_fixes : List (Str × Str) :=
  [("UserClient.swift".data, "Domains/User/UserClient.swift".data),
   ("UserView.swift".data, "Domains/User/UserView.swift".data),
   ("UserContext.swift".data, "Domains/User/UserContext.swift".data),
   ("UserState.swift".data, "Domains/User/UserState.swift".data),
   ("DataClient.swift".data, "Domains/Data/DataClient.swift".data),
   ("DataState.swift".data, "Domains/Data/DataState.swift".data),
   ("DataContext.swift".data, "Domains/Data/DataContext.swift".data),
   ("IntegrationSupportingViews.swift".data, "Integration/IntegrationSupportingViews.swift".data),
   ("CrossDomainOrchestration.swift".data, "Integration/CrossDomainOrchestration.swift".data),
   ("MultiDomainApplicationCoordinator.swift".data, "Utils/MultiDomainApplicationCoordinator.swift".data),
   ("MacroValidationContext.swift".data, "Examples/Phase2APIValidation/MacroValidationContext.swift".data),
   ("MacroValidationView.swift".data, "Examples/Phase2APIValidation/MacroValidationView.swift".data),
   ("Phase2ValidationView.swift".data, "Examples/Phase2APIValidation/Phase2ValidationView.swift".data)]

/-- One line under the per-filename substitution of `fix_project_file`: a
line that is exactly a planner-written file-reference fragment for a mapped
filename has its `path` attribute replaced by the mapped relative path. -/
def fixLine (fixes : List (Str × Str)) (l : Str) : Str :=
  fixes.foldl
    (fun l' fx =>
      match scanFileRef l' with
      | some p =>
        if p.2 = fx.1 && l' = fileRefFrag p.1 fx.1 then fileRefFragPath p.1 fx.1 fx.2
        else l'
      | none => l') l

def fix_project_file (content : List Str) : List Str :=
  content.map (fixLine path_fixes)

/-! ### Well-formedness of names and identifiers

`goodName` holds of every realistic Swift filename (alphanumeric with `_`
and `.`, ending in `.swift`, nonempty stem, and not containing the two
literal tokens that the manifest grammar reserves); `goodId` holds of every
realistic minted identifier (nonempty upper-case hex not containing the
hard-coded Sources-phase identifier). -/

def goodNameChar (c : Char) : Bool := c.isAlphanum || c = '_' || c = '.'

def goodName (n : Str) : Bool :=
  n.all goodNameChar && (".swift".data).isSuffixOf n && decide (7 ≤ n.length)
    && !(containsSub ("PBXFileReference".data) n) && !(containsSub sourcesHdrHex n)

def goodId (u : Str) : Bool :=
  !u.isEmpty && u.all isHexUp && !(containsSub sourcesHdrHex u)

/-! ### Concrete fixtures used by the witnesses and counterexamples -/

/-- A stream of distinct raw generator outputs. -/
def fxIds : Nat → Str := fun j =>
  match j with
  | 0 => "AAAA0000AAAA0000AAAA0000".data
  | 1 => "AAAA0000AAAA0000AAAA0001".data
  | 2 => "AAAA0000AAAA0000AAAA0002".data
  | 3 => "AAAA0000AAAA0000AAAA0003".data
  | _ + 4 => "AAAA0000AAAA0000AAAA0009".data

/-- A degenerate random source: every draw collides, and collides with an
identifier already present in the fixture manifest. -/
def fxIdsConst : Nat → Str := fun _ => "FFFF0000FFFF0000FFFF0001".data

def fxP1 : List Str :=
  ["// !$*UTF8*$!".data,
   "/* Begin PBXBuildFile section */".data,
   "\t\tBBBB0000BBBB0000BBBB0001 /* App.swift in Sources */ = \x7bisa = PBXBuildFile; fileRef = FFFF0000FFFF0000FFFF0001 /* App.swift */; \x7d;".data]
def fxBfL : Str := "/* End PBXBuildFile section */".data
def fxP2 : List Str :=
  ["/* Begin PBXFileReference section */".data,
   "\t\tFFFF0000FFFF0000FFFF0001 /* App.swift */ = \x7bisa = PBXFileReference; lastKnownFileType = sourcecode.swift; path = \"App.swift\"; sourceTree = \"<group>\"; \x7d;".data]
def fxFrL : Str := "/* End PBXFileReference section */".data
def fxP3 : List Str := []
def fxHdrL : Str := "\t\t1A12344E1234567890ABCDEF /* Sources */ = \x7b".data
def fxP4 : List Str := ["\t\t\tisa = PBXSourcesBuildPhase;".data]
def fxFlL : Str := "\t\t\tfiles = (".data
def fxP5 : List Str :=
  ["\t\t\t\tBBBB0000BBBB0000BBBB0001 /* App.swift in Sources */,".data]
def fxClL : Str := "\t\t\t);".data
def fxP6 : List Str := ["\t\t\x7d;".data]

/-- A small well-formed manifest: one declared file, all three sections. -/
def fxMan : List Str :=
  fxP1 ++ fxBfL :: fxP2 ++ fxFrL :: fxP3 ++ fxHdrL :: fxP4 ++ fxFlL :: fxP5
    ++ fxClL :: fxP6

/-- The same manifest with the file-reference section end marker removed
(a corrupted manifest). -/
def fx2Man : List Str :=
  fxP1 ++ fxBfL :: fxP2 ++ fxHdrL :: fxP4 ++ fxFlL :: fxP5 ++ fxClL :: fxP6

def fxApp : SwiftFile := ⟨"App.swift".data, "App.swift".data⟩
def fxNew : SwiftFile := ⟨"NewFile.swift".data, "NewFile.swift".data⟩
def fxF : List SwiftFile := [fxApp, fxNew]
def fxF1 : List SwiftFile := [fxNew]
def fxF2 : List SwiftFile := [⟨"Fresh.swift".data, "Fresh.swift".data⟩]
def fxF5 : List SwiftFile := [⟨"Extra.swift".data, "Extra.swift".data⟩]
def fxF6 : List SwiftFile :=
  [⟨"UserClient.swift".data, "Domains/User/UserClient.swift".data⟩]
def fxF10 : List SwiftFile :=
  [⟨"Dup.swift".data, "A/Dup.swift".data⟩, ⟨"Dup.swift".data, "B/Dup.swift".data⟩]

/-- A simple file tree with an excluded directory. -/
def fxTree : List FSTree :=
  [FSTree.file ("Root.swift".data),
   FSTree.dir (".git".data) [FSTree.file ("Hidden.swift".data)],
   FSTree.dir ("Sub".data)
     [FSTree.file ("Inner.swift".data), FSTree.file ("notes.txt".data)]]

/-- The fixed text of a file-reference fragment between the filename and its
repetition as the `path` attribute. -/
def frTail1 : Str := " lastKnownFileType = sourcecode.swift; path = \"".data

/-- The fixed text of a file-reference fragment after the `path` attribute. -/
def frTail2 : Str := "\"; sourceTree = \"<group>\"; \x7d;".data

/-! ## Lemmas about the string utilities -/

theorem splitFirstInfix_sound {pat s a b : Str}
    (h : splitFirstInfix pat s = some (a, b)) : s = a ++ pat ++ b := by
  induction s generalizing a with
  | nil =>
    by_cases hp : pat.isEmpty <;> simp [splitFirstInfix, hp] at h
    obtain ⟨rfl, rfl⟩ := h
    simp [List.isEmpty_iff.mp hp]
  | cons c t ih =>
    by_cases hp : pat.isPrefixOf (c :: t)
    · simp [splitFirstInfix, hp] at h
      obtain ⟨rfl, rfl⟩ := h
      obtain ⟨u, hu⟩ := List.isPrefixOf_iff_prefix.mp hp
      simp [← hu, List.drop_left]
    · have hp' : pat.isPrefixOf (c :: t) = false := by
        cases hb : pat.isPrefixOf (c :: t)
        · rfl
        · exact absurd hb hp
      rw [show splitFirstInfix pat (c :: t)
            = (splitFirstInfix pat t).map (fun p => (c :: p.1, p.2)) from by
          simp [splitFirstInfix, hp']] at h
      cases hsp : splitFirstInfix pat t with
      | none => rw [hsp] at h; exact absurd h (by simp)
      | some p =>
        obtain ⟨pa, pb⟩ := p
        rw [hsp] at h
        simp only [Option.map_some', Option.some_inj] at h
        injection h with h1 h2
        subst h2
        subst h1
        rw [ih hsp]
        simp

theorem splitFirstInfix_append {hc : Char} {pt a b : Str}
    (ha : ∀ c ∈ a, c ≠ hc) :
    splitFirstInfix (hc :: pt) (a ++ (hc :: pt) ++ b) = some (a, b) := by
  induction a with
  | nil =>
    have hpre : (hc :: pt).isPrefixOf ((hc :: pt) ++ b) = true :=
      List.isPrefixOf_iff_prefix.mpr (List.prefix_append _ _)
    simp only [List.nil_append]
    rw [show ((hc :: pt) ++ b : Str) = hc :: (pt ++ b) by simp]
    simp only [splitFirstInfix]
    rw [show (hc :: (pt ++ b) : Str) = (hc :: pt) ++ b by simp]
    simp [hpre, List.drop_left]
  | cons c a' ih =>
    have hne : (hc == c) = false := by
      have := ha c (by simp)
      simp [BEq.beq]
      exact fun hh => (this hh.symm).elim
    have hnp : (hc :: pt).isPrefixOf (c :: (a' ++ (hc :: pt) ++ b)) = false := by
      simp [List.isPrefixOf_cons₂, hne]
    have hrec := ih (fun c hm => ha c (by simp [hm]))
    simp only [List.cons_append, splitFirstInfix, hnp, Bool.false_eq_true, if_false,
      List.append_eq]
    rw [hrec]
    rfl

theorem mem_occPositions {pat s : Str} {i : Nat} :
    i ∈ occPositions pat s ↔ i < s.length + 1 ∧ pat.isPrefixOf (s.drop i) = true := by
  simp [occPositions, List.mem_filter, List.mem_range]

theorem infix_of_prefix_drop {pat s : Str} {i : Nat}
    (h : pat <+: s.drop i) : pat <:+: s := by
  obtain ⟨t, ht⟩ := h
  exact ⟨s.take i, t, by rw [List.append_assoc, ht, List.take_append_drop]⟩

theorem containsSub_iff {pat s : Str} : containsSub pat s = true ↔ pat <:+: s := by
  constructor
  · intro h
    rw [containsSub, Bool.not_eq_true', List.isEmpty_eq_false_iff_exists_mem] at h
    obtain ⟨i, hi⟩ := h
    rw [mem_occPositions] at hi
    exact infix_of_prefix_drop (List.isPrefixOf_iff_prefix.mp hi.2)
  · rintro ⟨pre, suf, h⟩
    rw [containsSub, Bool.not_eq_true', List.isEmpty_eq_false_iff_exists_mem]
    refine ⟨pre.length, mem_occPositions.mpr ⟨?_, ?_⟩⟩
    · rw [← h]
      simp [List.length_append]
      omega
    · rw [← h, List.append_assoc, List.drop_left]
      exact List.isPrefixOf_iff_prefix.mpr (List.prefix_append _ _)

theorem containsSub_eq_false {pat s : Str} :
    containsSub pat s = false ↔ ¬ pat <:+: s := by
  rw [← containsSub_iff]
  cases containsSub pat s <;> simp

theorem eq_singleton_of_nodup_mem {l : List Nat} {x : Nat} (hn : l.Nodup)
    (h : ∀ y, y ∈ l ↔ y = x) : l = [x] := by
  match l with
  | [] => exact absurd ((h x).mpr rfl) (by simp)
  | a :: t =>
    have hax : a = x := (h a).mp (by simp)
    have ht : t = [] := by
      match t with
      | [] => rfl
      | b :: t' =>
        have hbx : b = x := (h b).mp (by simp)
        rw [List.nodup_cons] at hn
        exact absurd (by simp [hax, hbx] : a ∈ b :: t') hn.1
    rw [hax, ht]

theorem occPositions_nodup (pat s : Str) : (occPositions pat s).Nodup :=
  (List.nodup_range _).filter _

theorem splitLastInfix_eq_of_unique {pat a b : Str}
    (huniq : ∀ p, pat.isPrefixOf ((a ++ pat ++ b).drop p) = true → p = a.length) :
    splitLastInfix pat (a ++ pat ++ b) = some (a, b) := by
  have hocc : occPositions pat (a ++ pat ++ b) = [a.length] := by
    refine eq_singleton_of_nodup_mem (occPositions_nodup _ _) (fun y => ?_)
    rw [mem_occPositions]
    constructor
    · exact fun hy => huniq y hy.2
    · rintro rfl
      refine ⟨by simp; omega, ?_⟩
      rw [List.append_assoc, List.drop_left]
      exact List.isPrefixOf_iff_prefix.mpr (List.prefix_append _ _)
  rw [splitLastInfix, hocc]
  simp only [List.getLast?_singleton, Option.map_some']
  rw [List.append_assoc, List.take_left, ← List.append_assoc]
  rw [List.drop_left' (by simp)]

theorem splitLastInfix_sound {pat s a b : Str}
    (h : splitLastInfix pat s = some (a, b)) : s = a ++ pat ++ b := by
  rw [splitLastInfix] at h
  cases hLast : (occPositions pat s).getLast? with
  | none => rw [hLast] at h; simp at h
  | some i =>
    rw [hLast] at h
    simp only [Option.map_some', Option.some_inj] at h
    have hi : i ∈ occPositions pat s := List.mem_of_getLast?_eq_some hLast
    rw [mem_occPositions] at hi
    obtain ⟨t, ht⟩ := List.isPrefixOf_iff_prefix.mp hi.2
    have hs : s = s.take i ++ pat ++ t := by
      rw [List.append_assoc, ht, List.take_append_drop]
    have hdrop : s.drop (i + pat.length) = t := by
      conv_lhs => rw [hs]
      exact List.drop_left' (by simp [List.length_take]; omega)
    injection h with h1 h2
    rw [← h1, ← h2, hdrop]
    exact hs


theorem splitLastInfix_eq_none {pat s : Str} (h : ¬ pat <:+: s) :
    splitLastInfix pat s = none := by
  have : occPositions pat s = [] := by
    rw [List.eq_nil_iff_forall_not_mem]
    intro i hi
    rw [mem_occPositions] at hi
    exact h (infix_of_prefix_drop (List.isPrefixOf_iff_prefix.mp hi.2))
  rw [splitLastInfix, this]
  rfl

theorem takeWhile_all {p : Char → Bool} {l : Str} (h : ∀ c ∈ l, p c = true) :
    l.takeWhile p = l := by
  induction l with
  | nil => rfl
  | cons c t ih =>
    rw [List.takeWhile_cons, h c (by simp), ih (fun c hm => h c (by simp [hm]))]
    simp

theorem trailingWordRun_eval {u : Str} (hu : ∀ c ∈ u, isWordChar c = true) :
    trailingWordRun ('\t' :: '\t' :: u) = u := by
  rw [trailingWordRun]
  rw [show ('\t' :: '\t' :: u : Str).reverse = u.reverse ++ ['\t', '\t'] by simp]
  rw [List.takeWhile_append]
  rw [takeWhile_all (fun c hm => hu c (by simpa using hm))]
  simp [List.takeWhile_cons, isWordChar]

theorem not_infix_of_missing_char {c : Char} {pat s : Str} (hc : c ∈ pat)
    (hs : ∀ x ∈ s, x ≠ c) : ¬ pat <:+: s :=
  fun h => hs c (h.subset hc) rfl

theorem infix_append_sep {c : Char} {pat x y : Str} (hc : c ∉ pat) :
    pat <:+: (x ++ c :: y) → pat <:+: x ∨ pat <:+: y := by
  rintro ⟨pre, suf, h⟩
  rw [List.append_assoc] at h
  rcases List.append_eq_append_iff.mp h with ⟨a', hx, hrest⟩ | ⟨c', hpre, hrest⟩
  · rcases List.append_eq_append_iff.mp hrest with ⟨t, ha', hsuf⟩ | ⟨t, hpat, hy⟩
    · exact Or.inl ⟨pre, t, by rw [hx, ha', List.append_assoc]⟩
    · match t, hy with
      | [], _ =>
        refine Or.inl ⟨pre, [], ?_⟩
        rw [List.append_nil] at hpat
        rw [hx, ← hpat, List.append_nil]
      | e :: t', hy =>
        exfalso
        apply hc
        rw [hpat]
        have : c = e := by injection hy
        simp [this]
  · match c', hrest with
    | [], hrest =>
      match pat, hc with
      | [], _ => exact Or.inl List.nil_infix
      | p :: ps, hc =>
        exfalso
        apply hc
        rw [List.nil_append] at hrest
        have : c = p := by injection hrest
        simp [this]
    | e :: c'', hrest =>
      have : y = c'' ++ (pat ++ suf) := by injection hrest
      exact Or.inr ⟨c'', suf, by rw [this, List.append_assoc]⟩

theorem infix_of_infix_of_infix {p q l : Str} (h1 : p <:+: q) (h2 : q <:+: l) :
    p <:+: l := h1.trans h2

theorem infix_append_sep' {c : Char} {pat x y : Str} (hc : c ∉ pat)
    (h : pat <:+: (x ++ [c] ++ y)) : pat <:+: x ∨ pat <:+: y := by
  apply infix_append_sep hc
  simpa [List.append_assoc] using h

theorem infix_cons_sep {c : Char} {pat y : Str} (hc : c ∉ pat)
    (h : pat <:+: (c :: y)) : pat = [] ∨ pat <:+: y := by
  have h' : pat <:+: (([] : Str) ++ c :: y) := by simpa using h
  rcases infix_append_sep hc h' with hx | hy
  · exact Or.inl (List.infix_nil.mp hx)
  · exact Or.inr hy

/-! ## Character-class bridges -/

theorem bool_ne_of_true_of_false {p : Char → Bool} {c d : Char}
    (h : p c = true) (hd : p d = false) : c ≠ d := by
  intro he
  rw [he, hd] at h
  exact Bool.false_ne_true h

theorem isHexUp_word {c : Char} (h : isHexUp c = true) : isWordChar c = true := by
  rw [isHexUp, Bool.or_eq_true] at h
  rw [isWordChar, Bool.or_eq_true]
  refine Or.inl ?_
  rw [Char.isAlphanum, Bool.or_eq_true]
  rcases h with h | h
  · exact Or.inr h
  · rw [Bool.and_eq_true, decide_eq_true_eq, decide_eq_true_eq] at h
    refine Or.inl ?_
    rw [Char.isAlpha, Bool.or_eq_true]
    refine Or.inl ?_
    rw [Char.isUpper, Bool.and_eq_true]
    obtain ⟨h1, h2⟩ := h
    rw [Char.le_def] at h1 h2
    constructor
    · exact decide_eq_true h1
    · have hFZ : ('F'.val ≤ (90 : UInt32)) := by decide
      exact decide_eq_true (UInt32.le_trans h2 hFZ)

/-! ## Accessors for the well-formedness predicates -/

theorem goodName_all {n : Str} (h : goodName n = true) :
    ∀ c ∈ n, goodNameChar c = true := by
  rw [goodName] at h
  simp only [Bool.and_eq_true, List.all_eq_true] at h
  exact h.1.1.1.1

theorem goodName_suffix {n : Str} (h : goodName n = true) :
    (".swift".data).isSuffixOf n = true := by
  rw [goodName] at h
  simp only [Bool.and_eq_true] at h
  exact h.1.1.1.2

theorem goodName_len {n : Str} (h : goodName n = true) : 7 ≤ n.length := by
  rw [goodName] at h
  simp only [Bool.and_eq_true, decide_eq_true_eq] at h
  exact h.1.1.2

theorem goodName_noPBX {n : Str} (h : goodName n = true) :
    ¬ (("PBXFileReference".data : Str) <:+: n) := by
  rw [goodName] at h
  simp only [Bool.and_eq_true, Bool.not_eq_true'] at h
  exact containsSub_eq_false.mp h.1.2

theorem goodName_noHdr {n : Str} (h : goodName n = true) :
    ¬ (sourcesHdrHex <:+: n) := by
  rw [goodName] at h
  simp only [Bool.and_eq_true, Bool.not_eq_true'] at h
  exact containsSub_eq_false.mp h.2

theorem goodId_ne_nil {u : Str} (h : goodId u = true) : u.isEmpty = false := by
  rw [goodId] at h
  simp only [Bool.and_eq_true, Bool.not_eq_true'] at h
  exact h.1.1

theorem goodId_all {u : Str} (h : goodId u = true) : ∀ c ∈ u, isHexUp c = true := by
  rw [goodId] at h
  simp only [Bool.and_eq_true, List.all_eq_true] at h
  exact h.1.2

theorem goodId_noHdr {u : Str} (h : goodId u = true) :
    ¬ (sourcesHdrHex <:+: u) := by
  rw [goodId] at h
  simp only [Bool.and_eq_true, Bool.not_eq_true'] at h
  exact containsSub_eq_false.mp h.2

/-! ## Shape of the fragments -/

theorem fileRefFrag_eq (u n : Str) :
    fileRefFrag u n = "\t\t".data ++ u ++ sep1 ++ n ++ sep2 ++ frTail1 ++ n ++ frTail2 := by
  rw [fileRefFrag]
  rw [show (" */ = \x7bisa = PBXFileReference; lastKnownFileType = sourcecode.swift; path = \"".data : Str)
      = sep2 ++ frTail1 from by decide]
  simp only [sep1, frTail2, List.append_assoc]

/-- The character `*` occurs in the remainder of a well-formed file-reference
fragment only at the single position inside the `*/` that closes the filename
comment, one step past the filename. -/
theorem star_pos {n : Str} (hn : ∀ c ∈ n, goodNameChar c = true) :
    ∀ k, (n ++ sep2 ++ (frTail1 ++ n ++ frTail2)).get? k = some '*' → k = n.length + 1 := by
  intro k hk
  rw [List.append_assoc] at hk
  by_cases h1 : k < n.length
  · rw [List.get?_append h1] at hk
    exact absurd (hn '*' (List.get?_mem hk)) (by decide)
  · push_neg at h1
    rw [List.get?_append_right h1] at hk
    by_cases h2 : k - n.length < sep2.length
    · rw [List.get?_append h2] at hk
      have hdec : ∀ j, j < 30 → sep2.get? j = some '*' → j = 1 := by decide
      have h30 : sep2.length = 30 := by decide
      have := hdec (k - n.length) (h30 ▸ h2) hk
      omega
    · push_neg at h2
      rw [List.get?_append_right h2] at hk
      have h30 : sep2.length = 30 := by decide
      rw [show ((frTail1 ++ n ++ frTail2 : Str)) = (frTail1 ++ n) ++ frTail2 from rfl] at hk
      by_cases h3 : k - n.length - sep2.length < (frTail1 ++ n).length
      · rw [List.get?_append h3] at hk
        by_cases h4 : k - n.length - sep2.length < frTail1.length
        · rw [List.get?_append h4] at hk
          exact absurd (List.get?_mem hk) (by decide)
        · push_neg at h4
          rw [List.get?_append_right h4] at hk
          exact absurd (hn '*' (List.get?_mem hk)) (by decide)
      · push_neg at h3
        rw [List.get?_append_right h3] at hk
        exact absurd (List.get?_mem hk) (by decide)

theorem splitLast_fileRef {n : Str} (hn : goodName n = true) :
    splitLastInfix sep2 (n ++ sep2 ++ (frTail1 ++ n ++ frTail2))
      = some (n, frTail1 ++ n ++ frTail2) := by
  apply splitLastInfix_eq_of_unique
  intro p hp
  obtain ⟨t, ht⟩ := List.isPrefixOf_iff_prefix.mp hp
  have hget : ((n ++ sep2 ++ (frTail1 ++ n ++ frTail2)).drop p).get? 1 = some '*' := by
    rw [← ht, List.get?_append (by decide)]
    decide
  rw [List.get?_drop] at hget
  have := star_pos (goodName_all hn) (p + 1) hget
  omega

/-- The line scanner recognises exactly the fragment the planner writes:
parsing a freshly written file-reference line yields its identifier and
filename. -/
theorem scanFileRef_fileRefFrag {u n : Str} (hu : goodId u = true)
    (hn : goodName n = true) : scanFileRef (fileRefFrag u n) = some (u, n) := by
  have huw : ∀ c ∈ u, isWordChar c = true :=
    fun c hc => isHexUp_word (goodId_all hu c hc)
  have hfrag : fileRefFrag u n
      = ('\t' :: '\t' :: u) ++ sep1 ++ (n ++ sep2 ++ (frTail1 ++ n ++ frTail2)) := by
    rw [fileRefFrag_eq]
    rw [show ("\t\t".data : Str) = ['\t', '\t'] from rfl]
    simp [List.append_assoc]
  have hsf : splitFirstInfix sep1 (fileRefFrag u n)
      = some ('\t' :: '\t' :: u, n ++ sep2 ++ (frTail1 ++ n ++ frTail2)) := by
    rw [hfrag]
    rw [show sep1 = ' ' :: "/* ".data from rfl]
    apply splitFirstInfix_append
    intro c hc
    rcases List.mem_cons.mp hc with rfl | hc
    · decide
    rcases List.mem_cons.mp hc with rfl | hc
    · decide
    · exact bool_ne_of_true_of_false (goodId_all hu c hc) (by decide)
  have hfind : (frTail1 ++ n ++ frTail2).findIdx? (fun c => c = '\x7d')
      = some (47 + n.length + 27) := by
    have hf1 : frTail1.findIdx? (fun c => c = '\x7d') = none := by decide
    have hfn : n.findIdx? (fun c => c = '\x7d') = none := by
      rw [List.findIdx?_eq_none_iff]
      intro c hc
      exact decide_eq_false
        (bool_ne_of_true_of_false (goodName_all hn c hc) (by decide))
    have hf2 : frTail2.findIdx? (fun c => c = '\x7d') = some 27 := by decide
    rw [List.findIdx?_append, List.findIdx?_append, hf1, hfn, hf2]
    simp [List.length_append]
    have : frTail1.length = 47 := by decide
    omega
  unfold scanFileRef
  rw [hsf]
  simp only []
  rw [trailingWordRun_eval huw, goodId_ne_nil hu]
  simp only [Bool.false_eq_true, if_false]
  rw [splitLast_fileRef hn]
  simp only []
  rw [goodName_suffix hn, decide_eq_true (goodName_len hn)]
  simp only [Bool.and_self, if_true]
  rw [hfind]
  simp only []
  have hT2 : (frTail1 ++ n ++ frTail2).get? (47 + n.length + 27 + 1) = some ';' := by
    have h47 : frTail1.length = 47 := by decide
    rw [show ((frTail1 ++ n ++ frTail2 : Str)) = (frTail1 ++ n) ++ frTail2 from rfl]
    rw [List.get?_append_right (by simp [List.length_append, h47]; omega)]
    rw [show 47 + n.length + 27 + 1 - ((frTail1 ++ n : Str)).length
        = 28 from by simp [List.length_append, h47]; omega]
    decide
  rw [hT2]
  simp

/-! ## The other two fragment kinds never parse as file references -/

theorem buildFileFrag_decomp (ub uf n : Str) :
    buildFileFrag ub uf n
      = '\t' :: '\t' :: (ub ++ ' ' :: ("/*".data ++ ' ' :: (n ++ ' '
          :: ("in Sources */ = \x7bisa = PBXBuildFile; fileRef =".data ++ ' '
          :: (uf ++ ' ' :: ("/*".data ++ ' ' :: (n ++ ' ' :: "*/; \x7d;".data))))))) := by
  rw [buildFileFrag]
  rw [show ("\t\t".data : Str) = ['\t'] ++ ['\t'] from rfl]
  simp only [show (" /* ".data : Str) = [' '] ++ ("/*".data ++ ([' '] ++ [])) from rfl,
    show (" in Sources */ = \x7bisa = PBXBuildFile; fileRef = ".data : Str)
      = [' '] ++ ("in Sources */ = \x7bisa = PBXBuildFile; fileRef =".data ++ ([' '] ++ [])) from rfl,
    show (" */; \x7d;".data : Str) = [' '] ++ "*/; \x7d;".data from rfl]
  simp [List.append_assoc]

theorem sourceFrag_decomp (ub n : Str) :
    sourceFrag ub n
      = '\t' :: '\t' :: '\t' :: '\t'
          :: (ub ++ ' ' :: ("/*".data ++ ' ' :: (n ++ ' ' :: "in Sources */,".data))) := by
  rw [sourceFrag]
  rw [show ("\t\t\t\t".data : Str) = ['\t'] ++ ['\t'] ++ ['\t'] ++ ['\t'] from rfl]
  simp only [show (" /* ".data : Str) = [' '] ++ ("/*".data ++ ([' '] ++ [])) from rfl,
    show (" in Sources */,".data : Str) = [' '] ++ "in Sources */,".data from rfl]
  simp [List.append_assoc]

theorem fileRefFrag_decomp2 (u n : Str) :
    fileRefFrag u n
      = '\t' :: '\t' :: (u ++ ' ' :: ("/*".data ++ ' ' :: (n ++ ' '
          :: ("*/ = \x7bisa = PBXFileReference; lastKnownFileType = sourcecode.swift; path =".data
              ++ ' ' :: ('"' :: (n ++ '"' :: "; sourceTree = \"<group>\"; \x7d;".data)))))) := by
  rw [fileRefFrag]
  rw [show ("\t\t".data : Str) = ['\t'] ++ ['\t'] from rfl]
  simp only [show (" /* ".data : Str) = [' '] ++ ("/*".data ++ ([' '] ++ [])) from rfl,
    show (" */ = \x7bisa = PBXFileReference; lastKnownFileType = sourcecode.swift; path = \"".data : Str)
      = [' ']
        ++ ("*/ = \x7bisa = PBXFileReference; lastKnownFileType = sourcecode.swift; path =".data
            ++ ([' '] ++ (['"'] ++ []))) from rfl,
    show ("\"; sourceTree = \"<group>\"; \x7d;".data : Str)
      = ['"'] ++ "; sourceTree = \"<group>\"; \x7d;".data from rfl]
  simp [List.append_assoc]

theorem pbx_not_infix_buildFrag {ub uf n : Str}
    (hub : goodId ub = true) (huf : goodId uf = true) (hn : goodName n = true) :
    ¬ (("PBXFileReference".data : Str) <:+: buildFileFrag ub uf n) := by
  intro h
  rw [buildFileFrag_decomp] at h
  have hT : ('\t' : Char) ∉ ("PBXFileReference".data : Str) := by decide
  have hSp : (' ' : Char) ∉ ("PBXFileReference".data : Str) := by decide
  rcases infix_cons_sep hT h with h | h
  · exact absurd h (by decide)
  rcases infix_cons_sep hT h with h | h
  · exact absurd h (by decide)
  rcases infix_append_sep hSp h with h | h
  · exact absurd h (not_infix_of_missing_char
      (show ('i' : Char) ∈ ("PBXFileReference".data : Str) from by decide)
      (fun x hx => bool_ne_of_true_of_false (goodId_all hub x hx) (by decide)))
  rcases infix_append_sep hSp h with h | h
  · exact absurd h (by decide)
  rcases infix_append_sep hSp h with h | h
  · exact absurd h (goodName_noPBX hn)
  rcases infix_append_sep hSp h with h | h
  · exact absurd h (by decide)
  rcases infix_append_sep hSp h with h | h
  · exact absurd h (not_infix_of_missing_char
      (show ('i' : Char) ∈ ("PBXFileReference".data : Str) from by decide)
      (fun x hx => bool_ne_of_true_of_false (goodId_all huf x hx) (by decide)))
  rcases infix_append_sep hSp h with h | h
  · exact absurd h (by decide)
  rcases infix_append_sep hSp h with h | h
  · exact absurd h (goodName_noPBX hn)
  · exact absurd h (by decide)

theorem pbx_not_infix_sourceFrag {ub n : Str}
    (hub : goodId ub = true) (hn : goodName n = true) :
    ¬ (("PBXFileReference".data : Str) <:+: sourceFrag ub n) := by
  intro h
  rw [sourceFrag_decomp] at h
  have hT : ('\t' : Char) ∉ ("PBXFileReference".data : Str) := by decide
  have hSp : (' ' : Char) ∉ ("PBXFileReference".data : Str) := by decide
  rcases infix_cons_sep hT h with h | h
  · exact absurd h (by decide)
  rcases infix_cons_sep hT h with h | h
  · exact absurd h (by decide)
  rcases infix_cons_sep hT h with h | h
  · exact absurd h (by decide)
  rcases infix_cons_sep hT h with h | h
  · exact absurd h (by decide)
  rcases infix_append_sep hSp h with h | h
  · exact absurd h (not_infix_of_missing_char
      (show ('i' : Char) ∈ ("PBXFileReference".data : Str) from by decide)
      (fun x hx => bool_ne_of_true_of_false (goodId_all hub x hx) (by decide)))
  rcases infix_append_sep hSp h with h | h
  · exact absurd h (by decide)
  rcases infix_append_sep hSp h with h | h
  · exact absurd h (goodName_noPBX hn)
  · exact absurd h (by decide)

theorem hdr_not_infix_buildFrag {ub uf n : Str}
    (hub : goodId ub = true) (huf : goodId uf = true) (hn : goodName n = true) :
    ¬ (sourcesHdrHex <:+: buildFileFrag ub uf n) := by
  intro h
  rw [buildFileFrag_decomp] at h
  have hT : ('\t' : Char) ∉ sourcesHdrHex := by decide
  have hSp : (' ' : Char) ∉ sourcesHdrHex := by decide
  rcases infix_cons_sep hT h with h | h
  · exact absurd h (by decide)
  rcases infix_cons_sep hT h with h | h
  · exact absurd h (by decide)
  rcases infix_append_sep hSp h with h | h
  · exact absurd h (goodId_noHdr hub)
  rcases infix_append_sep hSp h with h | h
  · exact absurd h (by decide)
  rcases infix_append_sep hSp h with h | h
  · exact absurd h (goodName_noHdr hn)
  rcases infix_append_sep hSp h with h | h
  · exact absurd h (by decide)
  rcases infix_append_sep hSp h with h | h
  · exact absurd h (goodId_noHdr huf)
  rcases infix_append_sep hSp h with h | h
  · exact absurd h (by decide)
  rcases infix_append_sep hSp h with h | h
  · exact absurd h (goodName_noHdr hn)
  · exact absurd h (by decide)

theorem hdr_not_infix_fileRefFrag {u n : Str}
    (hu : goodId u = true) (hn : goodName n = true) :
    ¬ (sourcesHdrHex <:+: fileRefFrag u n) := by
  intro h
  rw [fileRefFrag_decomp2] at h
  have hT : ('\t' : Char) ∉ sourcesHdrHex := by decide
  have hSp : (' ' : Char) ∉ sourcesHdrHex := by decide
  have hQ : ('"' : Char) ∉ sourcesHdrHex := by decide
  rcases infix_cons_sep hT h with h | h
  · exact absurd h (by decide)
  rcases infix_cons_sep hT h with h | h
  · exact absurd h (by decide)
  rcases infix_append_sep hSp h with h | h
  · exact absurd h (goodId_noHdr hu)
  rcases infix_append_sep hSp h with h | h
  · exact absurd h (by decide)
  rcases infix_append_sep hSp h with h | h
  · exact absurd h (goodName_noHdr hn)
  rcases infix_append_sep hSp h with h | h
  · exact absurd h (by decide)
  rcases infix_cons_sep hQ h with h | h
  · exact absurd h (by decide)
  rcases infix_append_sep hQ h with h | h
  · exact absurd h (goodName_noHdr hn)
  · exact absurd h (by decide)

/-- Any line the scanner accepts contains the literal `PBXFileReference`. -/
theorem scanFileRef_some_occurs {l : Str} {p : Str × Str}
    (h : scanFileRef l = some p) : ("PBXFileReference".data : Str) <:+: l := by
  unfold scanFileRef at h
  cases hsf : splitFirstInfix sep1 l with
  | none => rw [hsf] at h; exact absurd h (by simp)
  | some q =>
    obtain ⟨a, r⟩ := q
    rw [hsf] at h
    simp only [] at h
    cases hemp : (trailingWordRun a).isEmpty with
    | true => rw [hemp] at h; exact absurd h (by simp)
    | false =>
      rw [hemp] at h
      simp only [Bool.false_eq_true, if_false] at h
      cases hsl : splitLastInfix sep2 r with
      | none => rw [hsl] at h; exact absurd h (by simp)
      | some q2 =>
        obtain ⟨n', rest⟩ := q2
        have hl : l = a ++ sep1 ++ r := splitFirstInfix_sound hsf
        have hr : r = n' ++ sep2 ++ rest := splitLastInfix_sound hsl
        have hs2 : sep2 <:+: l := by
          rw [hl, hr]
          exact ⟨a ++ sep1 ++ n', rest, by simp [List.append_assoc]⟩
        exact ((by decide : ("PBXFileReference".data : Str) <:+: sep2)).trans hs2

theorem scanFileRef_buildFrag {ub uf n : Str} (hub : goodId ub = true)
    (huf : goodId uf = true) (hn : goodName n = true) :
    scanFileRef (buildFileFrag ub uf n) = none := by
  cases hs : scanFileRef (buildFileFrag ub uf n) with
  | none => rfl
  | some p =>
    exact absurd (scanFileRef_some_occurs hs) (pbx_not_infix_buildFrag hub huf hn)

theorem scanFileRef_sourceFrag {ub n : Str} (hub : goodId ub = true)
    (hn : goodName n = true) : scanFileRef (sourceFrag ub n) = none := by
  cases hs : scanFileRef (sourceFrag ub n) with
  | none => rfl
  | some p =>
    exact absurd (scanFileRef_some_occurs hs) (pbx_not_infix_sourceFrag hub hn)

/-- Build-file fragments do not contain the file-reference end marker. -/
theorem frMarker_not_in_buildFrag {ub uf n : Str} (hub : goodId ub = true)
    (huf : goodId uf = true) (hn : goodName n = true) :
    containsSub endFileRefMarker (buildFileFrag ub uf n) = false := by
  rw [containsSub_eq_false]
  intro h
  exact pbx_not_infix_buildFrag hub huf hn
    (((by decide : ("PBXFileReference".data : Str) <:+: endFileRefMarker)).trans h)

/-- Build-file fragments do not contain the Sources-phase header. -/
theorem hdrPat_not_in_buildFrag {ub uf n : Str} (hub : goodId ub = true)
    (huf : goodId uf = true) (hn : goodName n = true) :
    containsSub sourcesHeaderPat (buildFileFrag ub uf n) = false := by
  rw [containsSub_eq_false]
  intro h
  exact hdr_not_infix_buildFrag hub huf hn
    (((by decide : sourcesHdrHex <:+: sourcesHeaderPat)).trans h)

/-- File-reference fragments do not contain the Sources-phase header. -/
theorem hdrPat_not_in_fileRefFrag {u n : Str} (hu : goodId u = true)
    (hn : goodName n = true) :
    containsSub sourcesHeaderPat (fileRefFrag u n) = false := by
  rw [containsSub_eq_false]
  intro h
  exact hdr_not_infix_fileRefFrag hu hn
    (((by decide : sourcesHdrHex <:+: sourcesHeaderPat)).trans h)

/-! ## Python dict and parser fold lemmas -/

theorem find?_map_dictSet (m : List (Str × Str)) (k v : Str) :
    ((m.map (fun p => if p.1 = k then (k, v) else p)).find? (fun p => p.1 = k))
      = if m.any (fun p => p.1 = k) then some (k, v) else none := by
  induction m with
  | nil => simp
  | cons p t ih =>
    by_cases hp : p.1 = k
    · simp [hp]
    · rw [List.map_cons, if_neg hp]
      rw [List.find?_cons_of_neg _ (by simp [hp])]
      rw [ih, List.any_cons, decide_eq_false hp, Bool.false_or]

theorem lookupDict_dictSet_self (m : List (Str × Str)) (k v : Str) :
    lookupDict (dictSet m k v) k = some v := by
  rw [dictSet]
  by_cases hany : m.any (fun p => p.1 = k) = true
  · rw [if_pos hany, lookupDict, find?_map_dictSet, if_pos hany]
    rfl
  · rw [if_neg hany, lookupDict, List.find?_append]
    have hnone : m.find? (fun p => decide (p.1 = k)) = none := by
      rw [List.find?_eq_none]
      intro p hp hpk
      exact hany (List.any_eq_true.mpr ⟨p, hp, hpk⟩)
    rw [hnone]
    simp

theorem lookupDict_dictSet_other (m : List (Str × Str)) (k v k' : Str)
    (hk : k' ≠ k) : lookupDict (dictSet m k v) k' = lookupDict m k' := by
  rw [dictSet]
  by_cases hany : m.any (fun p => p.1 = k) = true
  · rw [if_pos hany, lookupDict, lookupDict]
    congr 1
    clear hany
    induction m with
    | nil => rfl
    | cons p t ih =>
      by_cases hp : p.1 = k
      · rw [List.map_cons, if_pos hp]
        rw [List.find?_cons_of_neg _ (by simp; exact fun he => hk he.symm)]
        rw [List.find?_cons_of_neg _
          (by simp [hp]; exact fun he => hk he.symm)]
        exact ih
      · rw [List.map_cons, if_neg hp]
        by_cases hp' : p.1 = k'
        · rw [List.find?_cons_of_pos _ (by simp [hp']),
            List.find?_cons_of_pos _ (by simp [hp'])]
        · rw [List.find?_cons_of_neg _ (by simp [hp']),
            List.find?_cons_of_neg _ (by simp [hp'])]
          exact ih
  · rw [if_neg hany, lookupDict, lookupDict, List.find?_append]
    cases hfm : m.find? (fun p => decide (p.1 = k')) with
    | some q => simp
    | none =>
      simp only [Option.none_or]
      rw [List.find?_cons_of_neg _ (by simpa using fun he => hk he.symm)]
      simp

theorem lookupDict_dictSet_isSome (m : List (Str × Str)) (k v n : Str)
    (h : (lookupDict m n).isSome = true) :
    (lookupDict (dictSet m k v) n).isSome = true := by
  by_cases hn : n = k
  · rw [hn, lookupDict_dictSet_self]; rfl
  · rw [lookupDict_dictSet_other m k v n hn]; exact h

theorem extract_fold_keeps {n : Str} (c : List Str) (m : List (Str × Str))
    (h : (lookupDict m n).isSome = true) :
    (lookupDict (c.foldl
      (fun m l => match scanFileRef l with
        | some p => dictSet m p.2 p.1
        | none => m) m) n).isSome = true := by
  induction c generalizing m with
  | nil => exact h
  | cons a t ih =>
    rw [List.foldl_cons]
    apply ih
    cases hscan : scanFileRef a with
    | none => simpa [hscan] using h
    | some p =>
      simp only [hscan]
      exact lookupDict_dictSet_isSome m p.2 p.1 n h

theorem extract_decl_isSome {c : List Str} {l u n : Str}
    (hl : l ∈ c) (hscan : scanFileRef l = some (u, n)) :
    (lookupDict (extract_existing_files c) n).isSome = true := by
  rw [extract_existing_files]
  have main : ∀ (c' : List Str) (m : List (Str × Str)), l ∈ c' →
      (lookupDict (c'.foldl
        (fun m l => match scanFileRef l with
          | some p => dictSet m p.2 p.1
          | none => m) m) n).isSome = true := by
    intro c'
    induction c' with
    | nil => intro m hm; simp at hm
    | cons a t ih =>
      intro m hm
      rcases List.mem_cons.mp hm with rfl | hm
      · rw [List.foldl_cons]
        apply extract_fold_keeps
        simp only [hscan]
        rw [lookupDict_dictSet_self]
        rfl
      · rw [List.foldl_cons]
        exact ih _ hm
  exact main c [] hl

theorem extract_isSome_decl {c : List Str} {n : Str}
    (h : (lookupDict (extract_existing_files c) n).isSome = true) :
    ∃ l ∈ c, ∃ u, scanFileRef l = some (u, n) := by
  rw [extract_existing_files] at h
  have main : ∀ (c' : List Str) (m : List (Str × Str)),
      (lookupDict (c'.foldl
        (fun m l => match scanFileRef l with
          | some p => dictSet m p.2 p.1
          | none => m) m) n).isSome = true →
      (lookupDict m n).isSome = true ∨ ∃ l ∈ c', ∃ u, scanFileRef l = some (u, n) := by
    intro c'
    induction c' with
    | nil => intro m hm; exact Or.inl hm
    | cons a t ih =>
      intro m hm
      rw [List.foldl_cons] at hm
      rcases ih _ hm with hacc | ⟨l, hl, u, hu⟩
      · cases hscan : scanFileRef a with
        | none =>
          rw [hscan] at hacc
          exact Or.inl hacc
        | some p =>
          rw [hscan] at hacc
          simp only [] at hacc
          by_cases hp : p.2 = n
          · exact Or.inr ⟨a, by simp, p.1, by rw [hscan, ← hp]⟩
          · rw [lookupDict_dictSet_other _ _ _ _ (fun he => hp he.symm)] at hacc
            exact Or.inl hacc
      · exact Or.inr ⟨l, by simp [hl], u, hu⟩
  rcases main c [] h with hacc | hdecl
  · simp [lookupDict] at hacc
  · exact hdecl

/-- The parser maps a filename to the identifier of the **last** line that
declares it: a duplicated filename silently overwrites the earlier binding. -/
theorem extract_last_wins (c : List Str) (n : Str) :
    lookupDict (extract_existing_files c) n
      = (((c.filterMap scanFileRef).filter (fun p => p.2 = n)).getLast?).map
          (fun p => p.1) := by
  induction c using List.reverseRecOn with
  | nil => simp [extract_existing_files, lookupDict]
  | append_singleton d l ih =>
    rw [extract_existing_files, List.foldl_append]
    rw [show (d.foldl
      (fun m l => match scanFileRef l with
        | some p => dictSet m p.2 p.1
        | none => m) []) = extract_existing_files d from rfl]
    rw [List.filterMap_append]
    cases hscan : scanFileRef l with
    | none =>
      simp only [List.foldl_cons, List.foldl_nil, hscan]
      rw [ih]
      simp [hscan]
    | some p =>
      simp only [List.foldl_cons, List.foldl_nil, hscan]
      by_cases hp : p.2 = n
      · rw [← hp, lookupDict_dictSet_self]
        simp [hscan, hp, List.filter_append]
      · rw [lookupDict_dictSet_other _ _ _ _ (fun he => hp he.symm), ih]
        simp [hscan, List.filter_append, hp]

/-! ## Insertion lemmas -/

theorem findIdx?_concat_true {p : Str → Bool} {a b : List Str} {x : Str}
    (ha : ∀ l ∈ a, p l = false) (hx : p x = true) :
    (a ++ x :: b).findIdx? p = some a.length := by
  rw [List.findIdx?_append]
  have h1 : a.findIdx? p = none := List.findIdx?_eq_none_iff.mpr ha
  rw [h1, List.findIdx?_cons, hx]
  simp

theorem insertBeforeMarker_found {m : Str} {new : List Str} {a b : List Str} {x : Str}
    (ha : ∀ l ∈ a, containsSub m l = false) (hx : containsSub m x = true) :
    insertBeforeMarker m new (a ++ x :: b) = a ++ new ++ x :: b := by
  rw [insertBeforeMarker, findIdx?_concat_true ha hx]
  simp only []
  rw [List.take_left, List.drop_left]

theorem insertBeforeMarker_not_found {m : Str} {new c : List Str}
    (hc : ∀ l ∈ c, containsSub m l = false) :
    insertBeforeMarker m new c = c := by
  rw [insertBeforeMarker, List.findIdx?_eq_none_iff.mpr hc]

theorem mem_splice {c new : List Str} {l : Str} {i : Nat} (h : l ∈ c) :
    l ∈ c.take i ++ new ++ c.drop i := by
  rw [← List.take_append_drop i c] at h
  simp only [List.mem_append] at h ⊢
  tauto

theorem mem_splice_new {c new : List Str} {l : Str} {i : Nat} (h : l ∈ new) :
    l ∈ c.take i ++ new ++ c.drop i := by
  simp only [List.mem_append]
  tauto

theorem mem_insertBeforeMarker {m : Str} {new c : List Str} {l : Str} (h : l ∈ c) :
    l ∈ insertBeforeMarker m new c := by
  rw [insertBeforeMarker]
  cases hf : c.findIdx? (fun l => containsSub m l) with
  | none => exact h
  | some i => exact mem_splice h

theorem count_splice (l : Str) (c new : List Str) (i : Nat) :
    (c.take i ++ new ++ c.drop i).count l = c.count l + new.count l := by
  rw [List.count_append, List.count_append]
  conv_rhs => rw [← List.take_append_drop i c, List.count_append]
  omega

theorem filter_splice {p : Str → Bool} (c new : List Str) (i : Nat)
    (hnew : ∀ l ∈ new, p l = false) :
    (c.take i ++ new ++ c.drop i).filter p = c.filter p := by
  have hnil : new.filter p = [] := List.filter_eq_nil_iff.mpr
    (fun a ha hpa => by rw [hnew a ha] at hpa; exact Bool.false_ne_true hpa)
  rw [List.filter_append, List.filter_append, hnil]
  conv_rhs => rw [← List.take_append_drop i c, List.filter_append]
  simp

theorem filter_insertBeforeMarker {p : Str → Bool} {m : Str} {new c : List Str}
    (hnew : ∀ l ∈ new, p l = false) :
    (insertBeforeMarker m new c).filter p = c.filter p := by
  rw [insertBeforeMarker]
  cases hf : c.findIdx? (fun l => containsSub m l) with
  | none => rfl
  | some i => exact filter_splice c new i hnew

theorem forall_mem_append_of {p : Str → Bool} {a b : List Str}
    (ha : ∀ l ∈ a, p l = false) (hb : ∀ l ∈ b, p l = false) :
    ∀ l ∈ a ++ b, p l = false := by
  intro l hl
  rcases List.mem_append.mp hl with h | h
  · exact ha l h
  · exact hb l h

theorem forall_mem_cons_of {p : Str → Bool} {b : List Str} {x : Str}
    (hx : p x = false) (hb : ∀ l ∈ b, p l = false) :
    ∀ l ∈ x :: b, p l = false := by
  intro l hl
  rcases List.mem_cons.mp hl with rfl | h
  · exact hx
  · exact hb l h

/-! ## Properties of the plan -/

theorem planFragsAux_good {ids : Nat → Str} {fs : List SwiftFile} {j : Nat}
    (hn : ∀ f ∈ fs, goodName f.name = true)
    (hi : ∀ a, j ≤ a → a < j + 2 * fs.length → goodId (generate_uuid (ids a)) = true) :
    ∀ t ∈ planFragsAux ids j fs,
      goodId t.1 = true ∧ goodId t.2.1 = true ∧ goodName t.2.2 = true := by
  induction fs generalizing j with
  | nil => intro t ht; simp [planFragsAux] at ht
  | cons f fs ih =>
    intro t ht
    rw [planFragsAux] at ht
    rcases List.mem_cons.mp ht with rfl | ht
    · refine ⟨hi j (le_refl j) (by simp only [List.length_cons]; omega),
        hi (j + 1) (by omega) (by simp only [List.length_cons]; omega), hn f (by simp)⟩
    · exact ih (fun f hf => hn f (by simp [hf]))
        (fun a h1 h2 => hi a (by omega)
          (by simp only [List.length_cons] at h2 ⊢; omega)) t ht

theorem planFrags_good {F : List SwiftFile} {c : List Str} {ids : Nat → Str}
    (hn : ∀ f ∈ F, goodName f.name = true)
    (hi : ∀ a, a < 2 * (missingOf F c).length → goodId (generate_uuid (ids a)) = true) :
    ∀ t ∈ planFrags F c ids,
      goodId t.1 = true ∧ goodId t.2.1 = true ∧ goodName t.2.2 = true := by
  apply planFragsAux_good
  · intro f hf
    exact hn f (List.mem_filter.mp hf).1
  · intro a h1 h2
    exact hi a (by omega)

theorem planFragsAux_names {ids : Nat → Str} {fs : List SwiftFile} {j : Nat} :
    ∀ t ∈ planFragsAux ids j fs, ∃ f ∈ fs, t.2.2 = f.name := by
  induction fs generalizing j with
  | nil => intro t ht; simp [planFragsAux] at ht
  | cons f fs ih =>
    intro t ht
    rw [planFragsAux] at ht
    rcases List.mem_cons.mp ht with rfl | ht
    · exact ⟨f, by simp, rfl⟩
    · obtain ⟨g, hg, he⟩ := ih t ht
      exact ⟨g, by simp [hg], he⟩

theorem planFragsAux_minted (ids : Nat → Str) (fs : List SwiftFile) (j : Nat) :
    (planFragsAux ids j fs).flatMap (fun t => [t.1, t.2.1])
      = (List.range' j (2 * fs.length)).map (fun a => generate_uuid (ids a)) := by
  induction fs generalizing j with
  | nil => simp [planFragsAux]
  | cons f fs ih =>
    rw [planFragsAux]
    rw [show 2 * ((f :: fs).length) = 2 * fs.length + 1 + 1 from by
      simp [List.length_cons]; omega]
    rw [List.range'_succ, List.range'_succ]
    simp only [List.flatMap_cons, List.map_cons]
    rw [ih]
    simp [Nat.add_assoc]

theorem mintedIds_eq (F : List SwiftFile) (c : List Str) (ids : Nat → Str) :
    mintedIds F c ids
      = (List.range' 0 (2 * (missingOf F c).length)).map
          (fun a => generate_uuid (ids a)) := by
  rw [mintedIds, planFrags, planFragsAux_minted]

/-! ## The staged patch, characterised -/

theorem update_characterization
    (F : List SwiftFile) (ids : Nat → Str) (c : List Str)
    (p₁ p₂ p₃ p₄ p₅ p₆ : List Str) (bfL frL hdrL flL clL : Str)
    (hc : c = p₁ ++ bfL :: p₂ ++ frL :: p₃ ++ hdrL :: p₄ ++ flL :: p₅ ++ clL :: p₆)
    (hbfL : containsSub endBuildFileMarker bfL = true)
    (hfrL : containsSub endFileRefMarker frL = true)
    (hhdrL : containsSub sourcesHeaderPat hdrL = true)
    (hflL : containsSub filesOpenPat flL = true)
    (hclL : containsSub sourcesClosePat clL = true)
    (h1 : ∀ l ∈ p₁, containsSub endBuildFileMarker l = false)
    (h2 : ∀ l ∈ p₁ ++ bfL :: p₂, containsSub endFileRefMarker l = false)
    (h3 : ∀ l ∈ p₁ ++ bfL :: p₂ ++ frL :: p₃, containsSub sourcesHeaderPat l = false)
    (h4 : ∀ l ∈ p₄, containsSub filesOpenPat l = false)
    (h5 : ∀ l ∈ p₅, containsSub sourcesClosePat l = false)
    (hnames : ∀ f ∈ F, goodName f.name = true)
    (hids : ∀ a, a < 2 * (missingOf F c).length →
      goodId (generate_uuid (ids a)) = true)
    (hmiss : missingOf F c ≠ []) :
    update_project_file F c ids
      = ⟨true, p₁ ++ newBuildFilesOf F c ids ++ bfL :: p₂ ++ newFileRefsOf F c ids
          ++ frL :: p₃ ++ hdrL :: p₄ ++ flL :: p₅ ++ newSourcesOf F c ids
          ++ clL :: p₆⟩ := by
  have hgood := planFrags_good hnames hids
  have hBF_noFr : ∀ l ∈ newBuildFilesOf F c ids,
      containsSub endFileRefMarker l = false := by
    intro l hl
    rw [newBuildFilesOf] at hl
    obtain ⟨t, ht, rfl⟩ := List.mem_map.mp hl
    obtain ⟨g1, g2, g3⟩ := hgood t ht
    exact frMarker_not_in_buildFrag g2 g1 g3
  have hBF_noHdr : ∀ l ∈ newBuildFilesOf F c ids,
      containsSub sourcesHeaderPat l = false := by
    intro l hl
    rw [newBuildFilesOf] at hl
    obtain ⟨t, ht, rfl⟩ := List.mem_map.mp hl
    obtain ⟨g1, g2, g3⟩ := hgood t ht
    exact hdrPat_not_in_buildFrag g2 g1 g3
  have hFR_noHdr : ∀ l ∈ newFileRefsOf F c ids,
      containsSub sourcesHeaderPat l = false := by
    intro l hl
    rw [newFileRefsOf] at hl
    obtain ⟨t, ht, rfl⟩ := List.mem_map.mp hl
    obtain ⟨g1, g2, g3⟩ := hgood t ht
    exact hdrPat_not_in_fileRefFrag g1 g3
  have hempty : (missingOf F c).isEmpty = false := by
    cases hm : missingOf F c with
    | nil => exact absurd hm hmiss
    | cons a t => rfl
  rw [update_project_file]
  simp only [hempty, Bool.false_eq_true, if_false]
  have hc1 : insertBeforeMarker endBuildFileMarker (newBuildFilesOf F c ids) c
      = p₁ ++ newBuildFilesOf F c ids
          ++ bfL :: (p₂ ++ frL :: p₃ ++ hdrL :: p₄ ++ flL :: p₅ ++ clL :: p₆) := by
    rw [hc]
    rw [show (p₁ ++ bfL :: p₂ ++ frL :: p₃ ++ hdrL :: p₄ ++ flL :: p₅ ++ clL :: p₆ :
        List Str) = p₁ ++ bfL
          :: (p₂ ++ frL :: p₃ ++ hdrL :: p₄ ++ flL :: p₅ ++ clL :: p₆) from by
      simp [List.append_assoc]]
    rw [insertBeforeMarker_found h1 hbfL]
  have hc2 : insertBeforeMarker endFileRefMarker (newFileRefsOf F c ids)
      (insertBeforeMarker endBuildFileMarker (newBuildFilesOf F c ids) c)
      = (p₁ ++ newBuildFilesOf F c ids ++ bfL :: p₂) ++ newFileRefsOf F c ids
          ++ frL :: (p₃ ++ hdrL :: p₄ ++ flL :: p₅ ++ clL :: p₆) := by
    rw [hc1]
    rw [show (p₁ ++ newBuildFilesOf F c ids
          ++ bfL :: (p₂ ++ frL :: p₃ ++ hdrL :: p₄ ++ flL :: p₅ ++ clL :: p₆) :
        List Str) = (p₁ ++ newBuildFilesOf F c ids ++ bfL :: p₂)
          ++ frL :: (p₃ ++ hdrL :: p₄ ++ flL :: p₅ ++ clL :: p₆) from by
      simp [List.append_assoc]]
    apply insertBeforeMarker_found _ hfrL
    intro l hl
    rcases List.mem_append.mp hl with hl | hl
    · rcases List.mem_append.mp hl with hl | hl
      · exact h2 l (List.mem_append.mpr (Or.inl hl))
      · exact hBF_noFr l hl
    · rcases List.mem_cons.mp hl with rfl | hl
      · exact h2 l (List.mem_append.mpr (Or.inr (List.mem_cons.mpr (Or.inl rfl))))
      · exact h2 l (List.mem_append.mpr (Or.inr (List.mem_cons.mpr (Or.inr hl))))
  set A := p₁ ++ newBuildFilesOf F c ids ++ bfL :: p₂ ++ newFileRefsOf F c ids
      ++ frL :: p₃ with hA
  have hc2' : insertBeforeMarker endFileRefMarker (newFileRefsOf F c ids)
      (insertBeforeMarker endBuildFileMarker (newBuildFilesOf F c ids) c)
      = A ++ hdrL :: (p₄ ++ flL :: (p₅ ++ clL :: p₆)) := by
    rw [hc2, hA]
    simp [List.append_assoc]
  have hAfalse : ∀ l ∈ A, containsSub sourcesHeaderPat l = false := by
    rw [hA]
    intro l hl
    simp only [List.append_assoc, List.mem_append, List.cons_append,
      List.mem_cons] at hl
    rcases hl with hl | hl | rfl | hl | hl | rfl | hl
    · exact h3 l (by simp [hl])
    · exact hBF_noHdr l hl
    · exact h3 l (by simp)
    · exact h3 l (by simp [hl])
    · exact hFR_noHdr l hl
    · exact h3 l (by simp)
    · exact h3 l (by simp [hl])
  have hidx : sourcesInsertIdx
      (insertBeforeMarker endFileRefMarker (newFileRefsOf F c ids)
        (insertBeforeMarker endBuildFileMarker (newBuildFilesOf F c ids) c))
      = some (A.length + 1 + p₄.length + 1 + p₅.length) := by
    rw [hc2', sourcesInsertIdx]
    rw [findIdx?_concat_true hAfalse hhdrL]
    simp only []
    rw [show (A ++ hdrL :: (p₄ ++ flL :: (p₅ ++ clL :: p₆)) : List Str)
        = (A ++ [hdrL]) ++ (p₄ ++ flL :: (p₅ ++ clL :: p₆)) from by
      simp [List.append_assoc]]
    rw [List.drop_left'
      (by simp only [List.length_append, List.length_singleton])]
    rw [findIdx?_concat_true h4 hflL]
    simp only []
    rw [show ((A ++ [hdrL]) ++ (p₄ ++ flL :: (p₅ ++ clL :: p₆)) : List Str)
        = ((A ++ [hdrL]) ++ p₄ ++ [flL]) ++ (p₅ ++ clL :: p₆) from by
      simp [List.append_assoc]]
    rw [List.drop_left'
      (by simp only [List.length_append, List.length_singleton])]
    rw [findIdx?_concat_true h5 hclL]
  unfold patchSources
  rw [hidx]
  simp only []
  rw [hc2']
  rw [show (A ++ hdrL :: (p₄ ++ flL :: (p₅ ++ clL :: p₆)) : List Str)
      = (A ++ [hdrL] ++ p₄ ++ [flL] ++ p₅) ++ (clL :: p₆) from by
    simp [List.append_assoc]]
  rw [List.take_left'
      (by simp only [List.length_append, List.length_singleton]),
    List.drop_left'
      (by simp only [List.length_append, List.length_singleton])]
  rw [hA]
  simp [List.append_assoc]

/-! ## Run-level helper lemmas -/

theorem mem_patchSources {F : List SwiftFile} {c : List Str} {ids : Nat → Str}
    {staged : List Str} {l : Str} (h : l ∈ staged) :
    l ∈ patchSources F c ids staged := by
  rw [patchSources]
  cases hf : sourcesInsertIdx staged with
  | none => exact h
  | some i => exact mem_splice h

theorem filter_patchSources {p : Str → Bool} {F : List SwiftFile} {c : List Str}
    {ids : Nat → Str} {staged : List Str}
    (hnew : ∀ l ∈ newSourcesOf F c ids, p l = false) :
    (patchSources F c ids staged).filter p = staged.filter p := by
  rw [patchSources]
  cases hf : sourcesInsertIdx staged with
  | none => rfl
  | some i => exact filter_splice staged _ i hnew

theorem mem_new_insertBeforeMarker {m : Str} {new c : List Str} {l : Str}
    (h : l ∈ new) (hfound : ∃ x ∈ c, containsSub m x = true) :
    l ∈ insertBeforeMarker m new c := by
  rw [insertBeforeMarker]
  cases hf : c.findIdx? (fun l => containsSub m l) with
  | none =>
    rw [List.findIdx?_eq_none_iff] at hf
    obtain ⟨x, hx, hcx⟩ := hfound
    rw [hf x hx] at hcx
    cases hcx
  | some i => exact mem_splice_new h

theorem planFragsAux_surj {ids : Nat → Str} {fs : List SwiftFile} {j : Nat} :
    ∀ f ∈ fs, ∃ t ∈ planFragsAux ids j fs, t.2.2 = f.name := by
  induction fs generalizing j with
  | nil => intro f hf; simp at hf
  | cons g fs ih =>
    intro f hf
    rcases List.mem_cons.mp hf with rfl | hf
    · exact ⟨(generate_uuid (ids j), generate_uuid (ids (j + 1)), f.name),
        by rw [planFragsAux]; simp, rfl⟩
    · obtain ⟨t, ht, he⟩ := @ih (j + 2) f hf
      exact ⟨t, by rw [planFragsAux]; simp [ht], he⟩

theorem update_noop {F : List SwiftFile} {c : List Str} {ids : Nat → Str}
    (h : missingOf F c = []) : update_project_file F c ids = ⟨false, c⟩ := by
  rw [update_project_file, h]
  rfl

theorem mem_missingOf {F : List SwiftFile} {c : List Str} {f : SwiftFile} :
    f ∈ missingOf F c ↔
      f ∈ F ∧ (lookupDict (extract_existing_files c) f.name).isNone = true := by
  rw [missingOf, List.mem_filter]

/-- After a run whose manifest contains the file-reference end marker,
every enumerated filename is declared in the written text. -/
theorem run_declares {F : List SwiftFile} {c : List Str} {ids : Nat → Str}
    (hnames : ∀ f ∈ F, goodName f.name = true)
    (hids : ∀ a, a < 2 * (missingOf F c).length →
      goodId (generate_uuid (ids a)) = true)
    (hfr : ∃ l ∈ c, containsSub endFileRefMarker l = true) :
    ∀ f ∈ F, (lookupDict (extract_existing_files
      (update_project_file F c ids).content) f.name).isSome = true := by
  intro f hf
  by_cases hm : missingOf F c = []
  · rw [update_noop hm]
    simp only []
    cases hlook : (lookupDict (extract_existing_files c) f.name) with
    | some u => rfl
    | none =>
      exfalso
      have : f ∈ missingOf F c := mem_missingOf.mpr ⟨hf, by rw [hlook]; rfl⟩
      rw [hm] at this
      simp at this
  · have hcontent : (update_project_file F c ids).content
        = patchSources F c ids
            (insertBeforeMarker endFileRefMarker (newFileRefsOf F c ids)
              (insertBeforeMarker endBuildFileMarker
                (newBuildFilesOf F c ids) c)) := by
      rw [update_project_file]
      have hempty : (missingOf F c).isEmpty = false := by
        cases hm' : missingOf F c with
        | nil => exact absurd hm' hm
        | cons a t => rfl
      simp only [hempty, Bool.false_eq_true, if_false]
    rw [hcontent]
    cases hlook : (lookupDict (extract_existing_files c) f.name) with
    | some u =>
      obtain ⟨l, hl, u', hscan⟩ := extract_isSome_decl (by rw [hlook]; rfl)
      exact extract_decl_isSome
        (mem_patchSources (mem_insertBeforeMarker (mem_insertBeforeMarker hl)))
        hscan
    | none =>
      have hfm : f ∈ missingOf F c := mem_missingOf.mpr ⟨hf, by rw [hlook]; rfl⟩
      obtain ⟨t, ht, hname⟩ := planFragsAux_surj f hfm
      have hfrag : fileRefFrag t.1 f.name ∈ newFileRefsOf F c ids := by
        rw [newFileRefsOf]
        exact List.mem_map.mpr ⟨t, ht, by rw [hname]⟩
      have hgood := planFrags_good hnames hids t ht
      have hfound : ∃ x ∈ insertBeforeMarker endBuildFileMarker
          (newBuildFilesOf F c ids) c, containsSub endFileRefMarker x = true := by
        obtain ⟨x, hx, hcx⟩ := hfr
        exact ⟨x, mem_insertBeforeMarker hx, hcx⟩
      exact extract_decl_isSome
        (mem_patchSources (mem_new_insertBeforeMarker hfrag hfound))
        (scanFileRef_fileRefFrag hgood.1 (hnames f hf))

/-! ## Plan indexing and injectivity -/

theorem planFragsAux_length (ids : Nat → Str) (fs : List SwiftFile) (j : Nat) :
    (planFragsAux ids j fs).length = fs.length := by
  induction fs generalizing j with
  | nil => rfl
  | cons f fs ih => rw [planFragsAux, List.length_cons, List.length_cons, ih]

theorem planFragsAux_getElem (ids : Nat → Str) (fs : List SwiftFile) (j : Nat) :
    ∀ i (h : i < fs.length),
      (planFragsAux ids j fs).get ⟨i, by rw [planFragsAux_length]; exact h⟩
        = (generate_uuid (ids (j + 2 * i)), generate_uuid (ids (j + 2 * i + 1)),
            (fs.get ⟨i, h⟩).name) := by
  induction fs generalizing j with
  | nil => intro i h; simp at h
  | cons f fs ih =>
    intro i h
    match i with
    | 0 => simp [planFragsAux]
    | i + 1 =>
      have hlt : i < fs.length := by simpa using h
      have hrec := ih (j + 2) i hlt
      simp only [planFragsAux, List.get_cons_succ]
      rw [hrec]
      have e1 : j + 2 + 2 * i = j + 2 * (i + 1) := by omega
      rw [e1]

theorem mem_planFrags_getElem {F : List SwiftFile} {c : List Str} {ids : Nat → Str}
    {t : Str × Str × Str} (ht : t ∈ planFrags F c ids) :
    ∃ i, ∃ h : i < (missingOf F c).length,
      t = (generate_uuid (ids (2 * i)), generate_uuid (ids (2 * i + 1)),
            ((missingOf F c).get ⟨i, h⟩).name) := by
  rw [planFrags] at ht
  obtain ⟨⟨i, hi2⟩, hi⟩ := List.get_of_mem ht
  have hlen : i < (missingOf F c).length := by rwa [planFragsAux_length] at hi2
  refine ⟨i, hlen, ?_⟩
  have hchar : (planFragsAux ids 0 (missingOf F c)).get ⟨i, hi2⟩
      = (generate_uuid (ids (0 + 2 * i)), generate_uuid (ids (0 + 2 * i + 1)),
          ((missingOf F c).get ⟨i, hlen⟩).name) :=
    planFragsAux_getElem ids (missingOf F c) 0 i hlen
  rw [← hi, hchar]
  simp

theorem append_sep_inj {u u' r r' : Str} {c : Char}
    (hu : ∀ x ∈ u, x ≠ c) (hu' : ∀ x ∈ u', x ≠ c)
    (h : u ++ c :: r = u' ++ c :: r') : u = u' ∧ r = r' := by
  induction u generalizing u' with
  | nil =>
    cases u' with
    | nil => simpa using h
    | cons d t =>
      exfalso
      rw [List.nil_append, List.cons_append] at h
      have : c = d := by injection h
      exact hu' d (by simp) this.symm
  | cons d t ih =>
    cases u' with
    | nil =>
      exfalso
      rw [List.nil_append, List.cons_append] at h
      have : d = c := by injection h
      exact hu d (by simp) this
    | cons d' t' =>
      rw [List.cons_append, List.cons_append] at h
      have hd : d = d' := by injection h
      have htail : t ++ c :: r = t' ++ c :: r' := by injection h
      obtain ⟨h1, h2⟩ := ih (fun x hx => hu x (by simp [hx]))
        (fun x hx => hu' x (by simp [hx])) htail
      exact ⟨by rw [hd, h1], h2⟩

theorem hex_no_space {u : Str} (hu : goodId u = true) : ∀ x ∈ u, x ≠ ' ' :=
  fun x hx => bool_ne_of_true_of_false (goodId_all hu x hx) (by decide)

theorem buildFileFrag_inj_fst {ub uf n ub' uf' n' : Str}
    (hub : goodId ub = true) (hub' : goodId ub' = true)
    (h : buildFileFrag ub uf n = buildFileFrag ub' uf' n') : ub = ub' := by
  rw [buildFileFrag_decomp, buildFileFrag_decomp] at h
  have h' : ub ++ ' ' :: ("/*".data ++ ' ' :: (n ++ ' '
      :: ("in Sources */ = \x7bisa = PBXBuildFile; fileRef =".data ++ ' '
      :: (uf ++ ' ' :: ("/*".data ++ ' ' :: (n ++ ' ' :: "*/; \x7d;".data))))))
      = ub' ++ ' ' :: ("/*".data ++ ' ' :: (n' ++ ' '
      :: ("in Sources */ = \x7bisa = PBXBuildFile; fileRef =".data ++ ' '
      :: (uf' ++ ' ' :: ("/*".data ++ ' ' :: (n' ++ ' ' :: "*/; \x7d;".data)))))) := by
    injection h with h1 h2
    injection h2
  exact (append_sep_inj (hex_no_space hub) (hex_no_space hub') h').1

theorem sourceFrag_inj_fst {ub n ub' n' : Str}
    (hub : goodId ub = true) (hub' : goodId ub' = true)
    (h : sourceFrag ub n = sourceFrag ub' n') : ub = ub' := by
  rw [sourceFrag_decomp, sourceFrag_decomp] at h
  have h' : ub ++ ' ' :: ("/*".data ++ ' ' :: (n ++ ' ' :: "in Sources */,".data))
      = ub' ++ ' ' :: ("/*".data ++ ' ' :: (n' ++ ' ' :: "in Sources */,".data)) := by
    injection h with h1 h2
    injection h2 with h3 h4
    injection h4 with h5 h6
    injection h6
  exact (append_sep_inj (hex_no_space hub) (hex_no_space hub') h').1

theorem brace_mem_buildFrag (ub uf n : Str) : '\x7b' ∈ buildFileFrag ub uf n := by
  rw [buildFileFrag_decomp]
  refine List.mem_cons.mpr (Or.inr (List.mem_cons.mpr (Or.inr ?_)))
  refine List.mem_append.mpr (Or.inr (List.mem_cons.mpr (Or.inr ?_)))
  refine List.mem_append.mpr (Or.inr (List.mem_cons.mpr (Or.inr ?_)))
  refine List.mem_append.mpr (Or.inr (List.mem_cons.mpr (Or.inr ?_)))
  refine List.mem_append.mpr (Or.inl ?_)
  decide

theorem no_brace_sourceFrag {ub n : Str} (hub : goodId ub = true)
    (hn : goodName n = true) : '\x7b' ∉ sourceFrag ub n := by
  rw [sourceFrag_decomp]
  intro hmem
  rcases List.mem_cons.mp hmem with h | hmem
  · exact absurd h (by decide)
  rcases List.mem_cons.mp hmem with h | hmem
  · exact absurd h (by decide)
  rcases List.mem_cons.mp hmem with h | hmem
  · exact absurd h (by decide)
  rcases List.mem_cons.mp hmem with h | hmem
  · exact absurd h (by decide)
  rcases List.mem_append.mp hmem with h | hmem
  · exact absurd (goodId_all hub _ h) (by decide)
  rcases List.mem_cons.mp hmem with h | hmem
  · exact absurd h (by decide)
  rcases List.mem_append.mp hmem with h | hmem
  · exact absurd h (by decide)
  rcases List.mem_cons.mp hmem with h | hmem
  · exact absurd h (by decide)
  rcases List.mem_append.mp hmem with h | hmem
  · exact absurd (goodName_all hn _ h) (by decide)
  rcases List.mem_cons.mp hmem with h | hmem
  · exact absurd h (by decide)
  · exact absurd hmem (by decide)

theorem buildFrag_ne_sourceFrag {ub uf n ub' n' : Str}
    (hub' : goodId ub' = true) (hn' : goodName n' = true) :
    buildFileFrag ub uf n ≠ sourceFrag ub' n' := by
  intro h
  exact no_brace_sourceFrag hub' hn' (h ▸ brace_mem_buildFrag ub uf n)

theorem fileRefFrag_ne_buildFrag {u n ub uf nb : Str}
    (hu : goodId u = true) (hn : goodName n = true)
    (hub : goodId ub = true) (huf : goodId uf = true) (hnb : goodName nb = true) :
    fileRefFrag u n ≠ buildFileFrag ub uf nb := by
  intro h
  have h1 := scanFileRef_fileRefFrag hu hn
  rw [h, scanFileRef_buildFrag hub huf hnb] at h1
  cases h1

theorem fileRefFrag_ne_sourceFrag {u n ub ns : Str}
    (hu : goodId u = true) (hn : goodName n = true)
    (hub : goodId ub = true) (hns : goodName ns = true) :
    fileRefFrag u n ≠ sourceFrag ub ns := by
  intro h
  have h1 := scanFileRef_fileRefFrag hu hn
  rw [h, scanFileRef_sourceFrag hub hns] at h1
  cases h1

theorem planFrags_nodup {F : List SwiftFile} {c : List Str} {ids : Nat → Str}
    (hdist : ∀ a b, a < 2 * (missingOf F c).length →
      b < 2 * (missingOf F c).length → a ≠ b →
      generate_uuid (ids a) ≠ generate_uuid (ids b)) :
    (planFrags F c ids).Nodup := by
  rw [planFrags, List.nodup_iff_injective_get]
  intro i j hij
  have hi : i.1 < (missingOf F c).length :=
    Nat.lt_of_lt_of_eq i.2 (planFragsAux_length ids (missingOf F c) 0)
  have hj : j.1 < (missingOf F c).length :=
    Nat.lt_of_lt_of_eq j.2 (planFragsAux_length ids (missingOf F c) 0)
  have hgi : (planFragsAux ids 0 (missingOf F c)).get i
      = (generate_uuid (ids (0 + 2 * i.1)), generate_uuid (ids (0 + 2 * i.1 + 1)),
          ((missingOf F c).get ⟨i.1, hi⟩).name) :=
    planFragsAux_getElem ids (missingOf F c) 0 i.1 hi
  have hgj : (planFragsAux ids 0 (missingOf F c)).get j
      = (generate_uuid (ids (0 + 2 * j.1)), generate_uuid (ids (0 + 2 * j.1 + 1)),
          ((missingOf F c).get ⟨j.1, hj⟩).name) :=
    planFragsAux_getElem ids (missingOf F c) 0 j.1 hj
  rw [hgi, hgj] at hij
  have hfst : generate_uuid (ids (0 + 2 * i.1)) = generate_uuid (ids (0 + 2 * j.1)) := by
    injection hij
  by_contra hne
  have hne' : (0 + 2 * i.1) ≠ (0 + 2 * j.1) := by
    intro he
    exact hne (Fin.ext (by omega))
  exact hdist _ _ (by omega) (by omega) hne' hfst

/-- Two plan entries sharing any of their minted identifiers are the same
entry (under stream distinctness). -/
theorem planFrags_entry_inj {F : List SwiftFile} {c : List Str} {ids : Nat → Str}
    (hdist : ∀ a b, a < 2 * (missingOf F c).length →
      b < 2 * (missingOf F c).length → a ≠ b →
      generate_uuid (ids a) ≠ generate_uuid (ids b))
    {t s : Str × Str × Str} (ht : t ∈ planFrags F c ids) (hs : s ∈ planFrags F c ids) :
    (t.1 = s.1 → t = s) ∧ (t.2.1 = s.2.1 → t = s) := by
  obtain ⟨i, hi, rfl⟩ := mem_planFrags_getElem ht
  obtain ⟨j, hj, rfl⟩ := mem_planFrags_getElem hs
  constructor
  · intro h1
    have : i = j := by
      by_contra hne
      exact hdist (2 * i) (2 * j) (by omega) (by omega) (by omega) h1
    subst this
    rfl
  · intro h1
    have : i = j := by
      by_contra hne
      exact hdist (2 * i + 1) (2 * j + 1) (by omega) (by omega) (by omega) h1
    subst this
    rfl

theorem fst_infix_fileRefFrag (u n : Str) : u <:+: fileRefFrag u n := by
  rw [fileRefFrag_eq]
  exact ⟨"\t\t".data, sep1 ++ n ++ sep2 ++ frTail1 ++ n ++ frTail2,
    by simp [List.append_assoc]⟩

theorem fst_infix_buildFrag (ub uf n : Str) : ub <:+: buildFileFrag ub uf n := by
  rw [buildFileFrag]
  exact ⟨"\t\t".data, " /* ".data ++ n
    ++ " in Sources */ = \x7bisa = PBXBuildFile; fileRef = ".data ++ uf
    ++ " /* ".data ++ n ++ " */; \x7d;".data, by simp [List.append_assoc]⟩

theorem fst_infix_sourceFrag (ub n : Str) : ub <:+: sourceFrag ub n := by
  rw [sourceFrag]
  exact ⟨"\t\t\t\t".data, " /* ".data ++ n ++ " in Sources */,".data,
    by simp [List.append_assoc]⟩

theorem count_zero_of_fresh {c : List Str} {idStr l : Str}
    (hfresh : ∀ x ∈ c, containsSub idStr x = false)
    (hinl : idStr <:+: l) : c.count l = 0 := by
  rw [List.count_eq_zero]
  intro hmem
  exact (containsSub_eq_false.mp (hfresh l hmem)) hinl

theorem count_patched (x : Str) (p₁ p₂ p₃ p₄ p₅ p₆ nBF nFR nSRC : List Str)
    (bfL frL hdrL flL clL : Str) :
    (p₁ ++ nBF ++ bfL :: p₂ ++ nFR ++ frL :: p₃ ++ hdrL :: p₄ ++ flL :: p₅
      ++ nSRC ++ clL :: p₆).count x
      = (p₁ ++ bfL :: p₂ ++ frL :: p₃ ++ hdrL :: p₄ ++ flL :: p₅
          ++ clL :: p₆).count x
        + nBF.count x + nFR.count x + nSRC.count x := by
  simp only [List.count_append, List.count_cons]
  omega

/-! ## The enumerator as a filter of the full tree enumeration -/

theorem filterMap_if {α β : Type} (q : α → Bool) (g : α → β) (l : List α) :
    (l.filterMap (fun n => if q n then some (g n) else none))
      = (l.filter q).map g := by
  induction l with
  | nil => rfl
  | cons a t ih => by_cases hq : q a <;> simp [hq, ih]

theorem filterMap_congr' {α β : Type} {f g : α → Option β} {l : List α}
    (h : ∀ a ∈ l, f a = g a) : l.filterMap f = l.filterMap g := by
  induction l with
  | nil => rfl
  | cons a t ih =>
    rw [List.filterMap_cons, List.filterMap_cons, h a (by simp),
      ih (fun a ha => h a (by simp [ha]))]

theorem walkDirs_eq (relDir : List Str) (ts : List FSTree) :
    walkDirs relDir ts = (enumAllDirs ts).filterMap (enumSelect relDir) := by
  induction relDir, ts using walkDirs.induct with
  | case1 relDir => rw [walkDirs, enumAllDirs]; rfl
  | case2 relDir n ts ih => rw [walkDirs, enumAllDirs, ih]
  | case3 relDir d cs ts ihcs ihts =>
    rw [walkDirs, enumAllDirs, List.filterMap_append, List.filterMap_append]
    by_cases hd : d ∈ excluded_dirs
    · have hcont : excluded_dirs.contains d = true := List.elem_iff.mpr hd
      rw [if_pos hd]
      have e1 : (List.map (fun n => (n, [d])) (filesOf cs)).filterMap
          (enumSelect relDir) = [] := by
        rw [List.filterMap_eq_nil_iff]
        intro a ha
        obtain ⟨n, hn, rfl⟩ := List.mem_map.mp ha
        simp [enumSelect, hcont, hd]
      have e2 : ((enumAllDirs cs).map (fun p => (p.1, d :: p.2))).filterMap
          (enumSelect relDir) = [] := by
        rw [List.filterMap_eq_nil_iff]
        intro a ha
        obtain ⟨p, hp, rfl⟩ := List.mem_map.mp ha
        simp [enumSelect, hcont, hd]
      rw [e1, e2, ihts]
      simp
    · have hcont : excluded_dirs.contains d = false := by
        cases hcb : excluded_dirs.contains d
        · rfl
        · exact absurd (List.elem_iff.mp hcb) hd
      rw [if_neg hd]
      have e1 : (List.map (fun n => (n, [d])) (filesOf cs)).filterMap
          (enumSelect relDir)
          = ((filesOf cs).filter isSwiftName).map (mkSwiftFile (relDir ++ [d])) := by
        rw [List.filterMap_map]
        rw [show ((enumSelect relDir) ∘ (fun n => (n, [d])))
            = fun n => if isSwiftName n then some (mkSwiftFile (relDir ++ [d]) n)
                else none from by
          funext n
          simp [enumSelect, hcont, hd]]
        exact filterMap_if _ _ _
      have e2 : ((enumAllDirs cs).map (fun p => (p.1, d :: p.2))).filterMap
          (enumSelect relDir)
          = (enumAllDirs cs).filterMap (enumSelect (relDir ++ [d])) := by
        rw [List.filterMap_map]
        apply filterMap_congr'
        intro p hp
        simp only [Function.comp_apply, enumSelect, List.all_cons, hcont,
          Bool.not_false, Bool.true_and]
        rw [show (relDir ++ [d]) ++ p.2 = relDir ++ (d :: p.2) from by simp]
      rw [e1, e2, ihts, ihcs]

theorem find_all_swift_files_eq (root : List FSTree) :
    find_all_swift_files root = (enumAll root).filterMap (enumSelect []) := by
  rw [find_all_swift_files, enumAll, List.filterMap_append, walkDirs_eq]
  congr 1
  rw [List.filterMap_map]
  rw [show ((enumSelect []) ∘ (fun n => (n, ([] : List Str))))
      = fun n => if isSwiftName n then some (mkSwiftFile [] n) else none from by
    funext n
    simp [enumSelect]]
  exact (filterMap_if _ _ _).symm

theorem walkDirs_pruned (relDir : List Str) (d : Str) (cs cs' ts : List FSTree)
    (hd : d ∈ excluded_dirs) :
    walkDirs relDir (FSTree.dir d cs :: ts)
      = walkDirs relDir (FSTree.dir d cs' :: ts) := by
  rw [walkDirs, walkDirs, if_pos hd, if_pos hd]

/-! ## The staged patch when the file-reference marker is absent -/

theorem update_fr_missing
    (F : List SwiftFile) (ids : Nat → Str) (c : List Str)
    (p₁ p₂ p₃ p₄ p₅ : List Str) (bfL hdrL flL clL : Str)
    (hc : c = p₁ ++ bfL :: p₂ ++ hdrL :: p₃ ++ flL :: p₄ ++ clL :: p₅)
    (hbfL : containsSub endBuildFileMarker bfL = true)
    (hhdrL : containsSub sourcesHeaderPat hdrL = true)
    (hflL : containsSub filesOpenPat flL = true)
    (hclL : containsSub sourcesClosePat clL = true)
    (h1 : ∀ l ∈ p₁, containsSub endBuildFileMarker l = false)
    (hFRnone : ∀ l ∈ c, containsSub endFileRefMarker l = false)
    (h3 : ∀ l ∈ p₁ ++ bfL :: p₂, containsSub sourcesHeaderPat l = false)
    (h4 : ∀ l ∈ p₃, containsSub filesOpenPat l = false)
    (h5 : ∀ l ∈ p₄, containsSub sourcesClosePat l = false)
    (hnames : ∀ f ∈ F, goodName f.name = true)
    (hids : ∀ a, a < 2 * (missingOf F c).length →
      goodId (generate_uuid (ids a)) = true)
    (hmiss : missingOf F c ≠ []) :
    update_project_file F c ids
      = ⟨true, p₁ ++ newBuildFilesOf F c ids ++ bfL :: p₂ ++ hdrL :: p₃
          ++ flL :: p₄ ++ newSourcesOf F c ids ++ clL :: p₅⟩ := by
  have hgood := planFrags_good hnames hids
  have hBF_noFr : ∀ l ∈ newBuildFilesOf F c ids,
      containsSub endFileRefMarker l = false := by
    intro l hl
    rw [newBuildFilesOf] at hl
    obtain ⟨t, ht, rfl⟩ := List.mem_map.mp hl
    obtain ⟨g1, g2, g3⟩ := hgood t ht
    exact frMarker_not_in_buildFrag g2 g1 g3
  have hBF_noHdr : ∀ l ∈ newBuildFilesOf F c ids,
      containsSub sourcesHeaderPat l = false := by
    intro l hl
    rw [newBuildFilesOf] at hl
    obtain ⟨t, ht, rfl⟩ := List.mem_map.mp hl
    obtain ⟨g1, g2, g3⟩ := hgood t ht
    exact hdrPat_not_in_buildFrag g2 g1 g3
  have hempty : (missingOf F c).isEmpty = false := by
    cases hm : missingOf F c with
    | nil => exact absurd hm hmiss
    | cons a t => rfl
  rw [update_project_file]
  simp only [hempty, Bool.false_eq_true, if_false]
  have hc1 : insertBeforeMarker endBuildFileMarker (newBuildFilesOf F c ids) c
      = p₁ ++ newBuildFilesOf F c ids
          ++ bfL :: (p₂ ++ hdrL :: p₃ ++ flL :: p₄ ++ clL :: p₅) := by
    rw [hc]
    rw [show (p₁ ++ bfL :: p₂ ++ hdrL :: p₃ ++ flL :: p₄ ++ clL :: p₅ : List Str)
        = p₁ ++ bfL :: (p₂ ++ hdrL :: p₃ ++ flL :: p₄ ++ clL :: p₅) from by
      simp [List.append_assoc]]
    rw [insertBeforeMarker_found h1 hbfL]
  have hc2 : insertBeforeMarker endFileRefMarker (newFileRefsOf F c ids)
      (insertBeforeMarker endBuildFileMarker (newBuildFilesOf F c ids) c)
      = insertBeforeMarker endBuildFileMarker (newBuildFilesOf F c ids) c := by
    apply insertBeforeMarker_not_found
    intro l hl
    rw [hc1] at hl
    simp only [List.append_assoc, List.mem_append, List.cons_append,
      List.mem_cons] at hl
    rcases hl with hl | hl | rfl | hl | rfl | hl | rfl | hl | rfl | hl
    · exact hFRnone l (by rw [hc]; simp [hl])
    · exact hBF_noFr l hl
    · exact hFRnone l (by rw [hc]; simp)
    · exact hFRnone l (by rw [hc]; simp [hl])
    · exact hFRnone l (by rw [hc]; simp)
    · exact hFRnone l (by rw [hc]; simp [hl])
    · exact hFRnone l (by rw [hc]; simp)
    · exact hFRnone l (by rw [hc]; simp [hl])
    · exact hFRnone l (by rw [hc]; simp)
    · exact hFRnone l (by rw [hc]; simp [hl])
  set A := p₁ ++ newBuildFilesOf F c ids ++ bfL :: p₂ with hA
  have hc2' : insertBeforeMarker endFileRefMarker (newFileRefsOf F c ids)
      (insertBeforeMarker endBuildFileMarker (newBuildFilesOf F c ids) c)
      = A ++ hdrL :: (p₃ ++ flL :: (p₄ ++ clL :: p₅)) := by
    rw [hc2, hc1, hA]
    simp [List.append_assoc]
  have hAfalse : ∀ l ∈ A, containsSub sourcesHeaderPat l = false := by
    rw [hA]
    intro l hl
    simp only [List.append_assoc, List.mem_append, List.cons_append,
      List.mem_cons] at hl
    rcases hl with hl | hl | rfl | hl
    · exact h3 l (by simp [hl])
    · exact hBF_noHdr l hl
    · exact h3 l (by simp)
    · exact h3 l (by simp [hl])
  have hidx : sourcesInsertIdx
      (insertBeforeMarker endFileRefMarker (newFileRefsOf F c ids)
        (insertBeforeMarker endBuildFileMarker (newBuildFilesOf F c ids) c))
      = some (A.length + 1 + p₃.length + 1 + p₄.length) := by
    rw [hc2', sourcesInsertIdx]
    rw [findIdx?_concat_true hAfalse hhdrL]
    simp only []
    rw [show (A ++ hdrL :: (p₃ ++ flL :: (p₄ ++ clL :: p₅)) : List Str)
        = (A ++ [hdrL]) ++ (p₃ ++ flL :: (p₄ ++ clL :: p₅)) from by
      simp [List.append_assoc]]
    rw [List.drop_left'
      (by simp only [List.length_append, List.length_singleton])]
    rw [findIdx?_concat_true h4 hflL]
    simp only []
    rw [show ((A ++ [hdrL]) ++ (p₃ ++ flL :: (p₄ ++ clL :: p₅)) : List Str)
        = ((A ++ [hdrL]) ++ p₃ ++ [flL]) ++ (p₄ ++ clL :: p₅) from by
      simp [List.append_assoc]]
    rw [List.drop_left'
      (by simp only [List.length_append, List.length_singleton])]
    rw [findIdx?_concat_true h5 hclL]
  unfold patchSources
  rw [hidx]
  simp only []
  rw [hc2']
  rw [show (A ++ hdrL :: (p₃ ++ flL :: (p₄ ++ clL :: p₅)) : List Str)
      = (A ++ [hdrL] ++ p₃ ++ [flL] ++ p₄) ++ (clL :: p₅) from by
    simp [List.append_assoc]]
  rw [List.take_left'
      (by simp only [List.length_append, List.length_singleton]),
    List.drop_left'
      (by simp only [List.length_append, List.length_singleton])]
  rw [hA]
  simp [List.append_assoc]

/-! ## Membership in the parser dictionary as a line-level predicate -/

theorem declaresName_fileRefFrag {u n n' : Str} (hu : goodId u = true)
    (hn : goodName n = true) :
    declaresName n' (fileRefFrag u n) = decide (n = n') := by
  rw [declaresName, scanFileRef_fileRefFrag hu hn]

theorem lookup_isSome_eq_any (c : List Str) (n : Str) :
    (lookupDict (extract_existing_files c) n).isSome
      = c.any (fun l => declaresName n l) := by
  cases hany : c.any (fun l => declaresName n l) with
  | true =>
    obtain ⟨l, hl, hd⟩ := List.any_eq_true.mp hany
    rw [declaresName] at hd
    cases hscan : scanFileRef l with
    | none => rw [hscan] at hd; cases hd
    | some p =>
      rw [hscan] at hd
      simp only [decide_eq_true_eq] at hd
      exact extract_decl_isSome hl (by rw [hscan, ← hd])
  | false =>
    cases hs : (lookupDict (extract_existing_files c) n).isSome with
    | false => rfl
    | true =>
      obtain ⟨l, hl, u, hu⟩ := extract_isSome_decl hs
      have : c.any (fun l => declaresName n l) = true :=
        List.any_eq_true.mpr ⟨l, hl, by rw [declaresName, hu]; simp⟩
      rw [hany] at this
      cases this

theorem planFragsAux_name_congr (ids : Nat → Str) :
    ∀ (j : Nat) (fs gs : List SwiftFile),
      fs.map SwiftFile.name = gs.map SwiftFile.name →
      planFragsAux ids j fs = planFragsAux ids j gs := by
  intro j fs
  induction fs generalizing j with
  | nil =>
    intro gs h
    cases gs with
    | nil => rfl
    | cons g gs => simp at h
  | cons f fs ih =>
    intro gs h
    cases gs with
    | nil => simp at h
    | cons g gs =>
      simp only [List.map_cons, List.cons.injEq] at h
      rw [planFragsAux, planFragsAux, h.1, ih (j + 2) gs h.2]

/-! ## Bounded-quantifier bridges for the concrete witnesses -/

theorem forall_lt_of_range_all {P : Nat → Prop} [DecidablePred P] {k : Nat}
    (h : (List.range k).all (fun a => decide (P a)) = true) :
    ∀ a, a < k → P a := by
  intro a ha
  exact of_decide_eq_true (List.all_eq_true.mp h a (List.mem_range.mpr ha))

theorem forall_lt2_of_range_all {Q : Nat → Nat → Prop} [∀ a b, Decidable (Q a b)]
    {k : Nat}
    (h : (List.range k).all
      (fun a => (List.range k).all (fun b => decide (Q a b))) = true) :
    ∀ a b, a < k → b < k → Q a b := by
  intro a b ha hb
  have h1 := List.all_eq_true.mp h a (List.mem_range.mpr ha)
  exact of_decide_eq_true (List.all_eq_true.mp h1 b (List.mem_range.mpr hb))

theorem count_one_of_nodup_mem {α : Type} [BEq α] [LawfulBEq α] {l : List α}
    {a : α} (hn : l.Nodup) (h : a ∈ l) : l.count a = 1 := by
  induction l with
  | nil => simp at h
  | cons b t ih =>
    rw [List.count_cons]
    rcases List.mem_cons.mp h with rfl | h'
    · have h0 : t.count a = 0 := by
        rw [List.count_eq_zero]
        exact (List.nodup_cons.mp hn).1
      simp [h0]
    · have hb : ¬ (b == a) = true := by
        intro he
        have hab : b = a := eq_of_beq he
        subst hab
        exact (List.nodup_cons.mp hn).1 h'
      rw [ih (List.nodup_cons.mp hn).2 h', if_neg hb]

/-! # Claim theorems -/

/-- Claim C1, corrected. The source mints identifiers by truncating random
draws with no distinctness or freshness check, so the claimed uniqueness
fails for unlucky draws (see the counterexample). Amended: **if** the
truncated draws consumed in the run are pairwise distinct and none equals an
identifier recorded in the manifest, then the minted identifiers are
pairwise distinct and distinct from every pre-existing identifier. -/
theorem claim_C1_amended (F : List SwiftFile) (c : List Str) (ids : Nat → Str)
    (hdist : ∀ a b, a < 2 * (missingOf F c).length →
      b < 2 * (missingOf F c).length → a ≠ b →
      generate_uuid (ids a) ≠ generate_uuid (ids b))
    (hfresh : ∀ a, a < 2 * (missingOf F c).length →
      ∀ p ∈ extract_existing_files c, generate_uuid (ids a) ≠ p.2) :
    (mintedIds F c ids).Pairwise (fun a b => a ≠ b)
    ∧ ∀ u ∈ mintedIds F c ids, ∀ p ∈ extract_existing_files c, u ≠ p.2 := by
  rw [mintedIds_eq]
  constructor
  · have hnd : ((List.range' 0 (2 * (missingOf F c).length)).map
        (fun a => generate_uuid (ids a))).Nodup := by
      apply List.Nodup.map_on _ (List.nodup_range' _ _)
      intro a ha b hb hab
      by_contra hne
      rw [List.mem_range'_1] at ha hb
      exact hdist a b (by omega) (by omega) hne hab
    exact hnd
  · intro u hu p hp
    obtain ⟨a, ha, rfl⟩ := List.mem_map.mp hu
    rw [List.mem_range'_1] at ha
    exact hfresh a (by omega) p hp

/-- Claim C1, counterexample: with a random source whose every truncated
draw is `FFFF0000FFFF0000FFFF0001` — the identifier already declared for
`App.swift` in the fixture manifest — a run over one missing file mints two
equal identifiers that also collide with the pre-existing one. Nothing in
`generate_uuid` or `update_project_file` checks for either collision. -/
theorem claim_C1_counterexample :
    ¬ ((mintedIds fxF1 fxMan fxIdsConst).Pairwise (fun a b => a ≠ b)
        ∧ ∀ u ∈ mintedIds fxF1 fxMan fxIdsConst,
            ∀ p ∈ extract_existing_files fxMan, u ≠ p.2) := by
  decide

theorem claim_C1_witness :
    (mintedIds fxF1 fxMan fxIds).Pairwise (fun a b => a ≠ b)
    ∧ ∀ u ∈ mintedIds fxF1 fxMan fxIds,
        ∀ p ∈ extract_existing_files fxMan, u ≠ p.2 :=
  claim_C1_amended fxF1 fxMan fxIds
    (forall_lt2_of_range_all (by decide))
    (forall_lt_of_range_all (by decide))

/-- Claim C3, confirmed. If every enumerated filename is already declared,
the run returns the manifest unwritten and byte-for-byte unchanged; and
(when the file-reference end marker is present, so the new declarations land
in the parsed section) a second run over the text written by a first run
finds nothing missing and changes nothing. -/
theorem claim_C3_idempotent (F : List SwiftFile) (c : List Str)
    (ids ids2 : Nat → Str)
    (hnames : ∀ f ∈ F, goodName f.name = true)
    (hids : ∀ a, a < 2 * (missingOf F c).length →
      goodId (generate_uuid (ids a)) = true)
    (hfr : ∃ l ∈ c, containsSub endFileRefMarker l = true) :
    (missingOf F c = [] → update_project_file F c ids = ⟨false, c⟩)
    ∧ update_project_file F (update_project_file F c ids).content ids2
        = ⟨false, (update_project_file F c ids).content⟩ := by
  refine ⟨fun h => update_noop h, ?_⟩
  apply update_noop
  rw [missingOf, List.filter_eq_nil_iff]
  intro f hf
  have hs := run_declares hnames hids hfr f hf
  cases hlook : lookupDict (extract_existing_files
      (update_project_file F c ids).content) f.name with
  | none => rw [hlook] at hs; cases hs
  | some u => simp [hlook]

theorem claim_C3_witness :
    (missingOf fxF fxMan = [] → update_project_file fxF fxMan fxIds = ⟨false, fxMan⟩)
    ∧ update_project_file fxF (update_project_file fxF fxMan fxIds).content fxIds
        = ⟨false, (update_project_file fxF fxMan fxIds).content⟩ :=
  claim_C3_idempotent fxF fxMan fxIds fxIds
    (by decide)
    (forall_lt_of_range_all (by decide))
    (by decide)

/-- Claim C4, confirmed. The missing set is the filename-keyed set
difference of the enumerated files minus the declared names, so a filename
declared before the run generates no fragments, and the file-reference
lines declaring it in the written text are exactly those of the original. -/
theorem claim_C4_no_duplication (F : List SwiftFile) (c : List Str)
    (ids : Nat → Str) (n u : Str)
    (hnames : ∀ f ∈ F, goodName f.name = true)
    (hids : ∀ a, a < 2 * (missingOf F c).length →
      goodId (generate_uuid (ids a)) = true)
    (hdecl : lookupDict (extract_existing_files c) n = some u) :
    missingOf F c
        = F.filter (fun f => !(c.any (fun l => declaresName f.name l)))
    ∧ (∀ f ∈ missingOf F c, f.name ≠ n)
    ∧ (update_project_file F c ids).content.filter (fun l => declaresName n l)
        = c.filter (fun l => declaresName n l) := by
  have hmemn : ∀ f ∈ missingOf F c, f.name ≠ n := by
    intro f hf he
    have h2 := (mem_missingOf.mp hf).2
    rw [he, hdecl] at h2
    cases h2
  refine ⟨?_, hmemn, ?_⟩
  · rw [missingOf]
    apply List.filter_congr
    intro f _
    rw [← lookup_isSome_eq_any]
    cases lookupDict (extract_existing_files c) f.name <;> rfl
  · by_cases hm : missingOf F c = []
    · rw [update_noop hm]
    · have hcontent : (update_project_file F c ids).content
          = patchSources F c ids
              (insertBeforeMarker endFileRefMarker (newFileRefsOf F c ids)
                (insertBeforeMarker endBuildFileMarker
                  (newBuildFilesOf F c ids) c)) := by
        rw [update_project_file]
        have hempty : (missingOf F c).isEmpty = false := by
          cases hm' : missingOf F c with
          | nil => exact absurd hm' hm
          | cons a t => rfl
        simp only [hempty, Bool.false_eq_true, if_false]
      have hgood := planFrags_good hnames hids
      have hSRC : ∀ l ∈ newSourcesOf F c ids, declaresName n l = false := by
        intro l hl
        rw [newSourcesOf] at hl
        obtain ⟨t, ht, rfl⟩ := List.mem_map.mp hl
        obtain ⟨g1, g2, g3⟩ := hgood t ht
        rw [declaresName, scanFileRef_sourceFrag g2 g3]
      have hBF : ∀ l ∈ newBuildFilesOf F c ids, declaresName n l = false := by
        intro l hl
        rw [newBuildFilesOf] at hl
        obtain ⟨t, ht, rfl⟩ := List.mem_map.mp hl
        obtain ⟨g1, g2, g3⟩ := hgood t ht
        rw [declaresName, scanFileRef_buildFrag g2 g1 g3]
      have hFR : ∀ l ∈ newFileRefsOf F c ids, declaresName n l = false := by
        intro l hl
        rw [newFileRefsOf] at hl
        obtain ⟨t, ht, rfl⟩ := List.mem_map.mp hl
        obtain ⟨g1, g2, g3⟩ := hgood t ht
        rw [declaresName_fileRefFrag g1 g3]
        simp only [decide_eq_false_iff_not]
        intro he
        obtain ⟨i, hi, heq⟩ := mem_planFrags_getElem ht
        have hname : t.2.2 = ((missingOf F c).get ⟨i, hi⟩).name := by rw [heq]
        exact hmemn _ (List.get_mem _ _ _) (by rw [← hname, he])
      rw [hcontent, filter_patchSources hSRC,
        filter_insertBeforeMarker hFR, filter_insertBeforeMarker hBF]

theorem claim_C4_witness :
    missingOf fxF fxMan
        = fxF.filter (fun f => !(fxMan.any (fun l => declaresName f.name l)))
    ∧ (∀ f ∈ missingOf fxF fxMan, f.name ≠ "App.swift".data)
    ∧ (update_project_file fxF fxMan fxIds).content.filter
          (fun l => declaresName ("App.swift".data) l)
        = fxMan.filter (fun l => declaresName ("App.swift".data) l) :=
  claim_C4_no_duplication fxF fxMan fxIds ("App.swift".data)
    ("FFFF0000FFFF0000FFFF0001".data)
    (by decide)
    (forall_lt_of_range_all (by decide))
    (by decide)

/-- Claim C5, corrected. On a well-formed manifest the property holds (this
theorem): for every planned file the written text contains exactly one
file-reference fragment under the minted file identifier, exactly one
build-membership fragment referencing that identifier under the minted
build identifier, and exactly one phase-listing fragment referencing the
build identifier. But it is not unconditional — when a marker is missing
the same run persists a partial declaration (see the counterexample), so
the claim is amended to require the three markers present and the minted
identifiers fresh and distinct. -/
theorem claim_C5_amended
    (F : List SwiftFile) (ids : Nat → Str) (c : List Str)
    (p₁ p₂ p₃ p₄ p₅ p₆ : List Str) (bfL frL hdrL flL clL : Str)
    (hc : c = p₁ ++ bfL :: p₂ ++ frL :: p₃ ++ hdrL :: p₄ ++ flL :: p₅ ++ clL :: p₆)
    (hbfL : containsSub endBuildFileMarker bfL = true)
    (hfrL : containsSub endFileRefMarker frL = true)
    (hhdrL : containsSub sourcesHeaderPat hdrL = true)
    (hflL : containsSub filesOpenPat flL = true)
    (hclL : containsSub sourcesClosePat clL = true)
    (h1 : ∀ l ∈ p₁, containsSub endBuildFileMarker l = false)
    (h2 : ∀ l ∈ p₁ ++ bfL :: p₂, containsSub endFileRefMarker l = false)
    (h3 : ∀ l ∈ p₁ ++ bfL :: p₂ ++ frL :: p₃, containsSub sourcesHeaderPat l = false)
    (h4 : ∀ l ∈ p₄, containsSub filesOpenPat l = false)
    (h5 : ∀ l ∈ p₅, containsSub sourcesClosePat l = false)
    (hnames : ∀ f ∈ F, goodName f.name = true)
    (hids : ∀ a, a < 2 * (missingOf F c).length →
      goodId (generate_uuid (ids a)) = true)
    (hmiss : missingOf F c ≠ [])
    (hdist : ∀ a b, a < 2 * (missingOf F c).length →
      b < 2 * (missingOf F c).length → a ≠ b →
      generate_uuid (ids a) ≠ generate_uuid (ids b))
    (hfresh : ∀ a, a < 2 * (missingOf F c).length →
      ∀ l ∈ c, containsSub (generate_uuid (ids a)) l = false) :
    ∀ t ∈ planFrags F c ids,
      (update_project_file F c ids).content.count (fileRefFrag t.1 t.2.2) = 1
      ∧ (update_project_file F c ids).content.count
          (buildFileFrag t.2.1 t.1 t.2.2) = 1
      ∧ (update_project_file F c ids).content.count (sourceFrag t.2.1 t.2.2) = 1 := by
  have hchar := update_characterization F ids c p₁ p₂ p₃ p₄ p₅ p₆ bfL frL hdrL
    flL clL hc hbfL hfrL hhdrL hflL hclL h1 h2 h3 h4 h5 hnames hids hmiss
  have hgood := planFrags_good hnames hids
  have hnd := planFrags_nodup hdist
  intro t ht
  obtain ⟨gt1, gt2, gt3⟩ := hgood t ht
  obtain ⟨i, hi, hti⟩ := mem_planFrags_getElem ht
  have ht1 : t.1 = generate_uuid (ids (2 * i)) := by rw [hti]
  have ht21 : t.2.1 = generate_uuid (ids (2 * i + 1)) := by rw [hti]
  have hcontent : (update_project_file F c ids).content
      = p₁ ++ newBuildFilesOf F c ids ++ bfL :: p₂ ++ newFileRefsOf F c ids
          ++ frL :: p₃ ++ hdrL :: p₄ ++ flL :: p₅ ++ newSourcesOf F c ids
          ++ clL :: p₆ := by rw [hchar]
  have hfresh1 : ∀ x ∈ c, containsSub t.1 x = false := by
    rw [ht1]; exact hfresh (2 * i) (by omega)
  have hfresh2 : ∀ x ∈ c, containsSub t.2.1 x = false := by
    rw [ht21]; exact hfresh (2 * i + 1) (by omega)
  have hndFR : (newFileRefsOf F c ids).Nodup := by
    rw [newFileRefsOf]
    apply List.Nodup.map_on _ hnd
    intro x hx y hy he
    obtain ⟨gx1, gx2, gx3⟩ := hgood x hx
    obtain ⟨gy1, gy2, gy3⟩ := hgood y hy
    have hsx := scanFileRef_fileRefFrag gx1 gx3
    rw [he, scanFileRef_fileRefFrag gy1 gy3] at hsx
    injection hsx with hsx'
    injection hsx' with ha hb
    exact (planFrags_entry_inj hdist hx hy).1 ha.symm
  have hndBF : (newBuildFilesOf F c ids).Nodup := by
    rw [newBuildFilesOf]
    apply List.Nodup.map_on _ hnd
    intro x hx y hy he
    obtain ⟨gx1, gx2, gx3⟩ := hgood x hx
    obtain ⟨gy1, gy2, gy3⟩ := hgood y hy
    exact (planFrags_entry_inj hdist hx hy).2 (buildFileFrag_inj_fst gx2 gy2 he)
  have hndSRC : (newSourcesOf F c ids).Nodup := by
    rw [newSourcesOf]
    apply List.Nodup.map_on _ hnd
    intro x hx y hy he
    obtain ⟨gx1, gx2, gx3⟩ := hgood x hx
    obtain ⟨gy1, gy2, gy3⟩ := hgood y hy
    exact (planFrags_entry_inj hdist hx hy).2 (sourceFrag_inj_fst gx2 gy2 he)
  have hBF0fr : (newBuildFilesOf F c ids).count (fileRefFrag t.1 t.2.2) = 0 := by
    rw [List.count_eq_zero]
    intro hmem
    rw [newBuildFilesOf] at hmem
    obtain ⟨s, hs, he⟩ := List.mem_map.mp hmem
    obtain ⟨gs1, gs2, gs3⟩ := hgood s hs
    exact fileRefFrag_ne_buildFrag gt1 gt3 gs2 gs1 gs3 he.symm
  have hSRC0fr : (newSourcesOf F c ids).count (fileRefFrag t.1 t.2.2) = 0 := by
    rw [List.count_eq_zero]
    intro hmem
    rw [newSourcesOf] at hmem
    obtain ⟨s, hs, he⟩ := List.mem_map.mp hmem
    obtain ⟨gs1, gs2, gs3⟩ := hgood s hs
    exact fileRefFrag_ne_sourceFrag gt1 gt3 gs2 gs3 he.symm
  have hFR1 : (newFileRefsOf F c ids).count (fileRefFrag t.1 t.2.2) = 1 := by
    apply count_one_of_nodup_mem hndFR
    rw [newFileRefsOf]
    exact List.mem_map.mpr ⟨t, ht, rfl⟩
  have hFR0bf : (newFileRefsOf F c ids).count (buildFileFrag t.2.1 t.1 t.2.2) = 0 := by
    rw [List.count_eq_zero]
    intro hmem
    rw [newFileRefsOf] at hmem
    obtain ⟨s, hs, he⟩ := List.mem_map.mp hmem
    obtain ⟨gs1, gs2, gs3⟩ := hgood s hs
    exact fileRefFrag_ne_buildFrag gs1 gs3 gt2 gt1 gt3 he
  have hSRC0bf : (newSourcesOf F c ids).count (buildFileFrag t.2.1 t.1 t.2.2) = 0 := by
    rw [List.count_eq_zero]
    intro hmem
    rw [newSourcesOf] at hmem
    obtain ⟨s, hs, he⟩ := List.mem_map.mp hmem
    obtain ⟨gs1, gs2, gs3⟩ := hgood s hs
    exact buildFrag_ne_sourceFrag gs2 gs3 he.symm
  have hBF1 : (newBuildFilesOf F c ids).count (buildFileFrag t.2.1 t.1 t.2.2) = 1 := by
    apply count_one_of_nodup_mem hndBF
    rw [newBuildFilesOf]
    exact List.mem_map.mpr ⟨t, ht, rfl⟩
  have hBF0src : (newBuildFilesOf F c ids).count (sourceFrag t.2.1 t.2.2) = 0 := by
    rw [List.count_eq_zero]
    intro hmem
    rw [newBuildFilesOf] at hmem
    obtain ⟨s, hs, he⟩ := List.mem_map.mp hmem
    obtain ⟨gs1, gs2, gs3⟩ := hgood s hs
    exact buildFrag_ne_sourceFrag gt2 gt3 he
  have hFR0src : (newFileRefsOf F c ids).count (sourceFrag t.2.1 t.2.2) = 0 := by
    rw [List.count_eq_zero]
    intro hmem
    rw [newFileRefsOf] at hmem
    obtain ⟨s, hs, he⟩ := List.mem_map.mp hmem
    obtain ⟨gs1, gs2, gs3⟩ := hgood s hs
    exact fileRefFrag_ne_sourceFrag gs1 gs3 gt2 gt3 he
  have hSRC1 : (newSourcesOf F c ids).count (sourceFrag t.2.1 t.2.2) = 1 := by
    apply count_one_of_nodup_mem hndSRC
    rw [newSourcesOf]
    exact List.mem_map.mpr ⟨t, ht, rfl⟩
  rw [hcontent]
  refine ⟨?_, ?_, ?_⟩
  · rw [count_patched, ← hc,
      count_zero_of_fresh hfresh1 (fst_infix_fileRefFrag t.1 t.2.2),
      hBF0fr, hFR1, hSRC0fr]
  · rw [count_patched, ← hc,
      count_zero_of_fresh hfresh2 (fst_infix_buildFrag t.2.1 t.1 t.2.2),
      hBF1, hFR0bf, hSRC0bf]
  · rw [count_patched, ← hc,
      count_zero_of_fresh hfresh2 (fst_infix_sourceFrag t.2.1 t.2.2),
      hBF0src, hFR0src, hSRC1]

/-- Claim C5, counterexample: on the marker-damaged fixture manifest the
run writes a text containing the build-membership fragment for
`Extra.swift` while **no** line of the written text is a file-reference
declaration of `Extra.swift` — a partial declaration introduced by the
system itself. -/
theorem claim_C5_counterexample :
    buildFileFrag (generate_uuid (fxIds 1)) (generate_uuid (fxIds 0))
        ("Extra.swift".data)
      ∈ (update_project_file fxF5 fx2Man fxIds).content
    ∧ (update_project_file fxF5 fx2Man fxIds).content.all
        (fun l => !(declaresName ("Extra.swift".data) l)) = true := by
  decide

theorem claim_C5_witness :
    (generate_uuid (fxIds 0), generate_uuid (fxIds 1), "NewFile.swift".data)
        ∈ planFrags fxF1 fxMan fxIds
    ∧ ((update_project_file fxF1 fxMan fxIds).content.count
          (fileRefFrag (generate_uuid (fxIds 0)) ("NewFile.swift".data)) = 1
        ∧ (update_project_file fxF1 fxMan fxIds).content.count
            (buildFileFrag (generate_uuid (fxIds 1)) (generate_uuid (fxIds 0))
              ("NewFile.swift".data)) = 1
        ∧ (update_project_file fxF1 fxMan fxIds).content.count
            (sourceFrag (generate_uuid (fxIds 1)) ("NewFile.swift".data)) = 1) :=
  ⟨by decide,
    claim_C5_amended fxF1 fxIds fxMan fxP1 fxP2 fxP3 fxP4 fxP5 fxP6 fxBfL fxFrL
      fxHdrL fxFlL fxClL
      (by decide) (by decide) (by decide) (by decide) (by decide) (by decide)
      (by decide) (by decide) (by decide) (by decide) (by decide) (by decide)
      (forall_lt_of_range_all (by decide))
      (by decide)
      (forall_lt2_of_range_all (by decide))
      (forall_lt_of_range_all (by decide))
      (generate_uuid (fxIds 0), generate_uuid (fxIds 1), "NewFile.swift".data)
      (by decide)⟩

/-- Claim C6, code bug. The file-reference fragment the planner writes has
no path parameter at all: line 100 records `path = "{file_info["name"]}"`,
the basename, never the enumerated relative path. First conjunct: the
generated file-reference lines depend only on the missing files' names, so
two enumerations differing only in paths produce identical fragments.
Remaining conjuncts, on the fixture: the single fragment generated for
`Domains/User/UserClient.swift` does not contain its relative path, and the
companion repair script `fix_file_paths.py` exists precisely to rewrite
that fragment to carry `Domains/User/UserClient.swift`. -/
theorem claim_C6_truncated_path :
    (∀ (F G : List SwiftFile) (c : List Str) (ids : Nat → Str),
        (missingOf F c).map SwiftFile.name = (missingOf G c).map SwiftFile.name →
        newFileRefsOf F c ids = newFileRefsOf G c ids)
    ∧ newFileRefsOf fxF6 fxMan fxIds
        = [fileRefFrag (generate_uuid (fxIds 0)) ("UserClient.swift".data)]
    ∧ containsSub ("Domains/User/UserClient.swift".data)
        (fileRefFrag (generate_uuid (fxIds 0)) ("UserClient.swift".data)) = false
    ∧ fixLine path_fixes
        (fileRefFrag (generate_uuid (fxIds 0)) ("UserClient.swift".data))
        = fileRefFragPath (generate_uuid (fxIds 0)) ("UserClient.swift".data)
            ("Domains/User/UserClient.swift".data) := by
  refine ⟨?_, by decide, by decide, by decide⟩
  intro F G c ids h
  rw [newFileRefsOf, newFileRefsOf, planFrags, planFrags,
    planFragsAux_name_congr ids 0 _ _ h]

/-- Claim C7, corrected. The parser surfaces no warning condition — its
only output is the filename-to-identifier mapping, and a duplicated
filename silently overwrites the earlier binding: the lookup always returns
the identifier of the **last** declaring line. -/
theorem claim_C7_amended (c : List Str) (n : Str) :
    lookupDict (extract_existing_files c) n
      = (((c.filterMap scanFileRef).filter (fun p => p.2 = n)).getLast?).map
          (fun p => p.1) :=
  extract_last_wins c n

/-- Claim C7, counterexample: a manifest declaring `Dup.swift` under two
different identifiers parses to a mapping that silently keeps only the
second identifier — the parser's entire output, with no warning channel. -/
theorem claim_C7_counterexample :
    extract_existing_files
        [fileRefFrag ("AAAA0000AAAA0000AAAA0007".data) ("Dup.swift".data),
         fileRefFrag ("BBBB0000BBBB0000BBBB0007".data) ("Dup.swift".data)]
      = [("Dup.swift".data, "BBBB0000BBBB0000BBBB0007".data)]
    ∧ ("AAAA0000AAAA0000AAAA0007".data : Str)
        ≠ ("BBBB0000BBBB0000BBBB0007".data : Str) := by
  decide

/-- Claim C9, confirmed. The enumerator equals the filter of the full tree
enumeration selecting exactly the `.swift`-named files whose directory
chain avoids the excluded names, each yielded once with its relative path;
and an excluded directory's contents are irrelevant to the walk — it is
pruned before recursion. -/
theorem claim_C9_enumerator :
    (∀ root : List FSTree,
        find_all_swift_files root = (enumAll root).filterMap (enumSelect []))
    ∧ ∀ (relDir : List Str) (d : Str) (cs cs' ts : List FSTree),
        d ∈ excluded_dirs →
          walkDirs relDir (FSTree.dir d cs :: ts)
            = walkDirs relDir (FSTree.dir d cs' :: ts) :=
  ⟨find_all_swift_files_eq, fun relDir d cs cs' ts hd =>
    walkDirs_pruned relDir d cs cs' ts hd⟩

/-- Claim C2, corrected. When the file-reference end marker is absent the
code does **not** exit without writing: it skips only that one insertion,
reports nothing, and still writes the partially patched text (the write at
lines 142–144 is unconditional once `missing_files` is non-empty). Amended:
on a manifest missing the file-reference end marker, the run writes a text
containing the build-file and Sources insertions but no new file-reference
line — every line the parser recognises as a file reference already stood
in the original manifest. -/
theorem claim_C2_amended
    (F : List SwiftFile) (ids : Nat → Str) (c : List Str)
    (p₁ p₂ p₃ p₄ p₅ : List Str) (bfL hdrL flL clL : Str)
    (hc : c = p₁ ++ bfL :: p₂ ++ hdrL :: p₃ ++ flL :: p₄ ++ clL :: p₅)
    (hbfL : containsSub endBuildFileMarker bfL = true)
    (hhdrL : containsSub sourcesHeaderPat hdrL = true)
    (hflL : containsSub filesOpenPat flL = true)
    (hclL : containsSub sourcesClosePat clL = true)
    (h1 : ∀ l ∈ p₁, containsSub endBuildFileMarker l = false)
    (hFRnone : ∀ l ∈ c, containsSub endFileRefMarker l = false)
    (h3 : ∀ l ∈ p₁ ++ bfL :: p₂, containsSub sourcesHeaderPat l = false)
    (h4 : ∀ l ∈ p₃, containsSub filesOpenPat l = false)
    (h5 : ∀ l ∈ p₄, containsSub sourcesClosePat l = false)
    (hnames : ∀ f ∈ F, goodName f.name = true)
    (hids : ∀ a, a < 2 * (missingOf F c).length →
      goodId (generate_uuid (ids a)) = true)
    (hmiss : missingOf F c ≠ []) :
    (update_project_file F c ids).written = true
    ∧ (update_project_file F c ids).content
        = p₁ ++ newBuildFilesOf F c ids ++ bfL :: p₂ ++ hdrL :: p₃
            ++ flL :: p₄ ++ newSourcesOf F c ids ++ clL :: p₅
    ∧ ∀ l ∈ (update_project_file F c ids).content,
        (scanFileRef l).isSome = true → l ∈ c := by
  have h := update_fr_missing F ids c p₁ p₂ p₃ p₄ p₅ bfL hdrL flL clL hc hbfL
    hhdrL hflL hclL h1 hFRnone h3 h4 h5 hnames hids hmiss
  have hgood := planFrags_good hnames hids
  refine ⟨by rw [h], by rw [h], ?_⟩
  intro l hl hscan
  rw [h] at hl
  simp only [List.append_assoc, List.mem_append, List.cons_append,
    List.mem_cons] at hl
  rcases hl with hl | hl | rfl | hl | rfl | hl | rfl | hl | hl | rfl | hl
  · rw [hc]; simp [hl]
  · exfalso
    rw [newBuildFilesOf] at hl
    obtain ⟨t, ht, rfl⟩ := List.mem_map.mp hl
    obtain ⟨g1, g2, g3⟩ := hgood t ht
    rw [scanFileRef_buildFrag g2 g1 g3] at hscan
    cases hscan
  · rw [hc]; simp
  · rw [hc]; simp [hl]
  · rw [hc]; simp
  · rw [hc]; simp [hl]
  · rw [hc]; simp
  · rw [hc]; simp [hl]
  · exfalso
    rw [newSourcesOf] at hl
    obtain ⟨t, ht, rfl⟩ := List.mem_map.mp hl
    obtain ⟨g1, g2, g3⟩ := hgood t ht
    rw [scanFileRef_sourceFrag g2 g3] at hscan
    cases hscan
  · rw [hc]; simp
  · rw [hc]; simp [hl]

/-- Claim C2, counterexample: on the fixture manifest whose file-reference
end marker has been removed, a run over one undeclared file still writes
(`written = true`), changes the text, inserts the build-membership fragment,
yet inserts no file-reference fragment — a partially patched manifest is
persisted instead of the claimed report-and-skip-write behaviour. -/
theorem claim_C2_counterexample :
    (update_project_file fxF2 fx2Man fxIds).written = true
    ∧ (update_project_file fxF2 fx2Man fxIds).content ≠ fx2Man
    ∧ fileRefFrag (generate_uuid (fxIds 0)) ("Fresh.swift".data)
        ∉ (update_project_file fxF2 fx2Man fxIds).content
    ∧ buildFileFrag (generate_uuid (fxIds 1)) (generate_uuid (fxIds 0))
        ("Fresh.swift".data)
        ∈ (update_project_file fxF2 fx2Man fxIds).content := by
  decide

theorem claim_C2_witness :
    (update_project_file fxF2 fx2Man fxIds).written = true
    ∧ (update_project_file fxF2 fx2Man fxIds).content
        = fxP1 ++ newBuildFilesOf fxF2 fx2Man fxIds ++ fxBfL :: fxP2
            ++ fxHdrL :: fxP4 ++ fxFlL :: fxP5
            ++ newSourcesOf fxF2 fx2Man fxIds ++ fxClL :: fxP6
    ∧ ∀ l ∈ (update_project_file fxF2 fx2Man fxIds).content,
        (scanFileRef l).isSome = true → l ∈ fx2Man :=
  claim_C2_amended fxF2 fxIds fx2Man fxP1 fxP2 fxP4 fxP5 fxP6 fxBfL fxHdrL
    fxFlL fxClL
    (by decide) (by decide) (by decide) (by decide) (by decide) (by decide)
    (by decide) (by decide) (by decide) (by decide) (by decide)
    (forall_lt_of_range_all (by decide))
    (by decide)

/-- Claim C8, confirmed. On a well-formed manifest (unique markers in
section order) a writing run produces exactly the original lines in their
original order with the three fragment blocks spliced in at the three
insertion points — every line outside the insertions is unchanged, and the
previously listed entries keep their positions. -/
theorem claim_C8_frame
    (F : List SwiftFile) (ids : Nat → Str) (c : List Str)
    (p₁ p₂ p₃ p₄ p₅ p₆ : List Str) (bfL frL hdrL flL clL : Str)
    (hc : c = p₁ ++ bfL :: p₂ ++ frL :: p₃ ++ hdrL :: p₄ ++ flL :: p₅ ++ clL :: p₆)
    (hbfL : containsSub endBuildFileMarker bfL = true)
    (hfrL : containsSub endFileRefMarker frL = true)
    (hhdrL : containsSub sourcesHeaderPat hdrL = true)
    (hflL : containsSub filesOpenPat flL = true)
    (hclL : containsSub sourcesClosePat clL = true)
    (h1 : ∀ l ∈ p₁, containsSub endBuildFileMarker l = false)
    (h2 : ∀ l ∈ p₁ ++ bfL :: p₂, containsSub endFileRefMarker l = false)
    (h3 : ∀ l ∈ p₁ ++ bfL :: p₂ ++ frL :: p₃, containsSub sourcesHeaderPat l = false)
    (h4 : ∀ l ∈ p₄, containsSub filesOpenPat l = false)
    (h5 : ∀ l ∈ p₅, containsSub sourcesClosePat l = false)
    (hnames : ∀ f ∈ F, goodName f.name = true)
    (hids : ∀ a, a < 2 * (missingOf F c).length →
      goodId (generate_uuid (ids a)) = true)
    (hmiss : missingOf F c ≠ []) :
    (update_project_file F c ids).content
      = p₁ ++ newBuildFilesOf F c ids ++ bfL :: p₂ ++ newFileRefsOf F c ids
          ++ frL :: p₃ ++ hdrL :: p₄ ++ flL :: p₅ ++ newSourcesOf F c ids
          ++ clL :: p₆ := by
  rw [update_characterization F ids c p₁ p₂ p₃ p₄ p₅ p₆ bfL frL hdrL flL clL
    hc hbfL hfrL hhdrL hflL hclL h1 h2 h3 h4 h5 hnames hids hmiss]

theorem claim_C8_witness :
    (update_project_file fxF fxMan fxIds).content
      = fxP1 ++ newBuildFilesOf fxF fxMan fxIds ++ fxBfL :: fxP2
          ++ newFileRefsOf fxF fxMan fxIds ++ fxFrL :: fxP3 ++ fxHdrL :: fxP4
          ++ fxFlL :: fxP5 ++ newSourcesOf fxF fxMan fxIds ++ fxClL :: fxP6 :=
  claim_C8_frame fxF fxIds fxMan fxP1 fxP2 fxP3 fxP4 fxP5 fxP6 fxBfL fxFrL
    fxHdrL fxFlL fxClL
    (by decide) (by decide) (by decide) (by decide) (by decide) (by decide)
    (by decide) (by decide) (by decide) (by decide) (by decide) (by decide)
    (forall_lt_of_range_all (by decide))
    (by decide)

/-- Claim C10, confirmed (implicit behaviour). Missingness is keyed by
filename only, so two undeclared files sharing a filename at different
paths are both missing; the loop mints a fresh identifier pair for each,
and the written manifest carries two file-reference entries with the same
filename under different identifiers, two build-membership entries
referencing them, and two phase-listing entries referencing the two build
identifiers. -/
theorem claim_C10_dup_names
    (F : List SwiftFile) (ids : Nat → Str) (c : List Str)
    (p₁ p₂ p₃ p₄ p₅ p₆ : List Str) (bfL frL hdrL flL clL : Str)
    (hc : c = p₁ ++ bfL :: p₂ ++ frL :: p₃ ++ hdrL :: p₄ ++ flL :: p₅ ++ clL :: p₆)
    (hbfL : containsSub endBuildFileMarker bfL = true)
    (hfrL : containsSub endFileRefMarker frL = true)
    (hhdrL : containsSub sourcesHeaderPat hdrL = true)
    (hflL : containsSub filesOpenPat flL = true)
    (hclL : containsSub sourcesClosePat clL = true)
    (h1 : ∀ l ∈ p₁, containsSub endBuildFileMarker l = false)
    (h2 : ∀ l ∈ p₁ ++ bfL :: p₂, containsSub endFileRefMarker l = false)
    (h3 : ∀ l ∈ p₁ ++ bfL :: p₂ ++ frL :: p₃, containsSub sourcesHeaderPat l = false)
    (h4 : ∀ l ∈ p₄, containsSub filesOpenPat l = false)
    (h5 : ∀ l ∈ p₅, containsSub sourcesClosePat l = false)
    (hnames : ∀ f ∈ F, goodName f.name = true)
    (hids : ∀ a, a < 2 * (missingOf F c).length →
      goodId (generate_uuid (ids a)) = true)
    (hdist : ∀ a b, a < 2 * (missingOf F c).length →
      b < 2 * (missingOf F c).length → a ≠ b →
      generate_uuid (ids a) ≠ generate_uuid (ids b))
    (f g : SwiftFile) (hfF : f ∈ F) (hgF : g ∈ F) (hfg : f ≠ g)
    (hname : g.name = f.name)
    (hfu : (lookupDict (extract_existing_files c) f.name).isNone = true) :
    ∃ u₁ b₁ u₂ b₂ : Str, u₁ ≠ u₂ ∧ b₁ ≠ b₂
      ∧ fileRefFrag u₁ f.name ∈ (update_project_file F c ids).content
      ∧ fileRefFrag u₂ f.name ∈ (update_project_file F c ids).content
      ∧ buildFileFrag b₁ u₁ f.name ∈ (update_project_file F c ids).content
      ∧ buildFileFrag b₂ u₂ f.name ∈ (update_project_file F c ids).content
      ∧ sourceFrag b₁ f.name ∈ (update_project_file F c ids).content
      ∧ sourceFrag b₂ f.name ∈ (update_project_file F c ids).content := by
  have hfm : f ∈ missingOf F c := mem_missingOf.mpr ⟨hfF, hfu⟩
  have hgm : g ∈ missingOf F c :=
    mem_missingOf.mpr ⟨hgF, by rw [hname]; exact hfu⟩
  have hmiss : missingOf F c ≠ [] := List.ne_nil_of_mem hfm
  have hchar := update_characterization F ids c p₁ p₂ p₃ p₄ p₅ p₆ bfL frL hdrL
    flL clL hc hbfL hfrL hhdrL hflL hclL h1 h2 h3 h4 h5 hnames hids hmiss
  obtain ⟨⟨i, hi⟩, hif⟩ := List.mem_iff_get.mp hfm
  obtain ⟨⟨j, hj⟩, hjg⟩ := List.mem_iff_get.mp hgm
  have hij : i ≠ j := by
    intro he
    apply hfg
    rw [← hif, ← hjg]
    subst he
    rfl
  have hleni : i < (planFrags F c ids).length := by
    rw [planFrags, planFragsAux_length]; exact hi
  have hlenj : j < (planFrags F c ids).length := by
    rw [planFrags, planFragsAux_length]; exact hj
  have hpi : (planFrags F c ids).get ⟨i, hleni⟩
      = (generate_uuid (ids (0 + 2 * i)), generate_uuid (ids (0 + 2 * i + 1)),
          ((missingOf F c).get ⟨i, hi⟩).name) :=
    planFragsAux_getElem ids (missingOf F c) 0 i hi
  have hpj : (planFrags F c ids).get ⟨j, hlenj⟩
      = (generate_uuid (ids (0 + 2 * j)), generate_uuid (ids (0 + 2 * j + 1)),
          ((missingOf F c).get ⟨j, hj⟩).name) :=
    planFragsAux_getElem ids (missingOf F c) 0 j hj
  have hti : (planFrags F c ids).get ⟨i, hleni⟩ ∈ planFrags F c ids :=
    List.get_mem _ _ _
  have htj : (planFrags F c ids).get ⟨j, hlenj⟩ ∈ planFrags F c ids :=
    List.get_mem _ _ _
  have hmemBig : ∀ l : Str,
      l ∈ newBuildFilesOf F c ids ∨ l ∈ newFileRefsOf F c ids
        ∨ l ∈ newSourcesOf F c ids →
      l ∈ (update_project_file F c ids).content := by
    intro l hl
    rw [hchar]
    simp only [List.append_assoc, List.mem_append, List.cons_append,
      List.mem_cons]
    tauto
  refine ⟨((planFrags F c ids).get ⟨i, hleni⟩).1,
    ((planFrags F c ids).get ⟨i, hleni⟩).2.1,
    ((planFrags F c ids).get ⟨j, hlenj⟩).1,
    ((planFrags F c ids).get ⟨j, hlenj⟩).2.1,
    ?_, ?_, ?_, ?_, ?_, ?_, ?_, ?_⟩
  · rw [hpi, hpj]
    exact hdist _ _ (by omega) (by omega) (by omega)
  · rw [hpi, hpj]
    exact hdist _ _ (by omega) (by omega) (by omega)
  · apply hmemBig
    right; left
    rw [newFileRefsOf]
    refine List.mem_map.mpr ⟨(planFrags F c ids).get ⟨i, hleni⟩, hti, ?_⟩
    rw [hpi, hif]
  · apply hmemBig
    right; left
    rw [newFileRefsOf]
    refine List.mem_map.mpr ⟨(planFrags F c ids).get ⟨j, hlenj⟩, htj, ?_⟩
    rw [hpj, hjg, hname]
  · apply hmemBig
    left
    rw [newBuildFilesOf]
    refine List.mem_map.mpr ⟨(planFrags F c ids).get ⟨i, hleni⟩, hti, ?_⟩
    rw [hpi, hif]
  · apply hmemBig
    left
    rw [newBuildFilesOf]
    refine List.mem_map.mpr ⟨(planFrags F c ids).get ⟨j, hlenj⟩, htj, ?_⟩
    rw [hpj, hjg, hname]
  · apply hmemBig
    right; right
    rw [newSourcesOf]
    refine List.mem_map.mpr ⟨(planFrags F c ids).get ⟨i, hleni⟩, hti, ?_⟩
    rw [hpi, hif]
  · apply hmemBig
    right; right
    rw [newSourcesOf]
    refine List.mem_map.mpr ⟨(planFrags F c ids).get ⟨j, hlenj⟩, htj, ?_⟩
    rw [hpj, hjg, hname]

theorem claim_C10_witness :
    ∃ u₁ b₁ u₂ b₂ : Str, u₁ ≠ u₂ ∧ b₁ ≠ b₂
      ∧ fileRefFrag u₁ ("Dup.swift".data)
          ∈ (update_project_file fxF10 fxMan fxIds).content
      ∧ fileRefFrag u₂ ("Dup.swift".data)
          ∈ (update_project_file fxF10 fxMan fxIds).content
      ∧ buildFileFrag b₁ u₁ ("Dup.swift".data)
          ∈ (update_project_file fxF10 fxMan fxIds).content
      ∧ buildFileFrag b₂ u₂ ("Dup.swift".data)
          ∈ (update_project_file fxF10 fxMan fxIds).content
      ∧ sourceFrag b₁ ("Dup.swift".data)
          ∈ (update_project_file fxF10 fxMan fxIds).content
      ∧ sourceFrag b₂ ("Dup.swift".data)
          ∈ (update_project_file fxF10 fxMan fxIds).content :=
  claim_C10_dup_names fxF10 fxIds fxMan fxP1 fxP2 fxP3 fxP4 fxP5 fxP6 fxBfL
    fxFrL fxHdrL fxFlL fxClL
    (by decide) (by decide) (by decide) (by decide) (by decide) (by decide)
    (by decide) (by decide) (by decide) (by decide) (by decide) (by decide)
    (forall_lt_of_range_all (by decide))
    (forall_lt2_of_range_all (by decide))
    ⟨"Dup.swift".data, "A/Dup.swift".data⟩ ⟨"Dup.swift".data, "B/Dup.swift".data⟩
    (by decide) (by decide) (by decide) (by decide) (by decide)

theorem claim_C9_witness :
    find_all_swift_files fxTree = (enumAll fxTree).filterMap (enumSelect [])
    ∧ walkDirs [] [FSTree.dir (".git".data) [FSTree.file ("Hidden.swift".data)]]
        = walkDirs [] [FSTree.dir (".git".data) []] :=
  ⟨claim_C9_enumerator.1 fxTree,
    claim_C9_enumerator.2 [] (".git".data) [FSTree.file ("Hidden.swift".data)] [] []
      (by decide)⟩

end XcodeSync
